import Mathlib

/-
  Verification development for the backend-polymorphic query IR
  (`Hasura.RQL.IR.Select`) and the RQL query dispatcher
  (`Hasura.Server.API.V2Query`) of this repository.

  The Haskell source is shallowly embedded: each Haskell data type becomes a
  Lean inductive/structure with the same constructors and field order, the
  hand-written `Bifoldable` instances become explicit `bifoldMap…` functions,
  and the stock-derived `Functor`/`Foldable` instances become explicit
  `map…`/`…VList` (toList-style) functions that enumerate constructor fields
  left-to-right in declaration order, exactly as GHC's deriving does.

  Type families of the `Backend` class (`TableName b`, `Column b`, …) are
  bundled into a Lean structure `Backend` of plain types.  Components that
  live in modules outside the sampled source (`AnnBoolExp`, `OrderByItemG`,
  `FunctionArgsExp`'s argument type, `NativeQuery`) are modelled from the
  spec; each such definition is marked `Modelled from the spec:` in its doc
  comment.
-/

namespace V2

abbrev Text := String

abbrev FieldName := String

abbrev RelName := String

abbrev SourceName := String

abbrev ComputedFieldName := String

abbrev FunctionArgName := String

/-- `getFuncArgNameTxt` from `Hasura.RQL.Types.Function`: unwraps the
argument-name newtype to its text. -/
def getFuncArgNameTxt (a : FunctionArgName) : Text := a

/-- `Fields a = [(FieldName, a)]` from `Hasura.RQL.Types.Common`. -/
abbrev Fields (a : Type) := List (FieldName × a)

/-- Non-empty list, modelling `Data.List.NonEmpty`. -/
structure NEList (α : Type) where
  head : α
  tail : List α
  deriving Repr

/-- The list of elements of a non-empty list, in order. -/
def NEList.toList (l : NEList α) : List α := l.head :: l.tail

/-- Modelled from the spec: `Data.HashMap.Strict` (the module is not part of
the sampled source).  Represented as an association list without duplicate
keys; iteration order is the list order. -/
def HashMap (k a : Type) : Type := List (k × a)

/-- `Data.HashMap.Strict.insert`: if the key is present its value is
replaced, otherwise the new binding is added. -/
def HashMap.insert [DecidableEq k] (key : k) (val : a) : HashMap k a → HashMap k a
  | [] => [(key, val)]
  | (k', v') :: rest =>
      if k' = key then (key, val) :: rest
      else (k', v') :: HashMap.insert key val rest

/-- `Data.HashMap.Strict.lookup`. -/
def HashMap.lookup [DecidableEq k] (key : k) : HashMap k a → Option a
  | [] => none
  | (k', v') :: rest => if k' = key then some v' else HashMap.lookup key rest

/-- The values of a hash map, in iteration order (used by the derived
`Foldable` instance of containers holding hash maps). -/
def HashMap.values (m : HashMap k a) : List a := m.map Prod.snd

set_option linter.dupNamespace false

/-- `StringifyNumbers` from `Hasura.GraphQL.Schema.Options`. -/
inductive StringifyNumbers
  | StringifyNumbers
  | DontStringifyNumbers
  deriving DecidableEq, Repr

/-- `NamingCase` from `Hasura.GraphQL.Schema.NamingCase`. -/
inductive NamingCase
  | HasuraCase
  | GraphqlCase
  deriving DecidableEq, Repr

/-- `JsonAggSelect` from `Hasura.RQL.Types.Common`. -/
inductive JsonAggSelect
  | JASMultipleRows
  | JASSingleObject
  deriving DecidableEq, Repr

/-- `CursorOrdering` from `Hasura.RQL.Types.Subscription`. -/
inductive CursorOrdering
  | COAscending
  | CODescending
  deriving DecidableEq, Repr

/-- `FIIdentifier`: identifier used exclusively as the argument to
`FromIdentifier`. -/
structure FIIdentifier where
  unFIIdentifier : Text
  deriving DecidableEq, Repr

/-- The `Backend` type-class type families, bundled as a structure of plain
types.  Each field corresponds to one type family used by the IR module. -/
structure Backend : Type 1 where
  TableName : Type
  Column : Type
  ScalarType : Type
  ColumnType : Type
  FunctionName : Type
  ColumnInfo : Type
  RelInfo : Type
  BasicOrderType : Type
  NullsOrderType : Type
  XRelay : Type
  XComputedField : Type
  XStreamingSubscription : Type
  XNodesAgg : Type
  ScalarSelectionArguments : Type
  CountType : Type
  DBJoinField : Type
  ColumnValue : Type

/-- `PrimaryKeyColumns b`: a non-empty sequence of column infos. -/
abbrev PrimaryKeyColumns (b : Backend) := NEList b.ColumnInfo

-- Boolean expressions (Hasura.RQL.IR.BoolExp; module not in the sampled source)

/-- Modelled from the spec: `GBoolExp b a` from `Hasura.RQL.IR.BoolExp` (not
in the sampled source) — the generic boolean-expression tree of the
permission filter ("a row-level security predicate"), foldable over its
field type `a`. -/
inductive GBoolExp (a : Type) : Type
  | BoolAnd (xs : List (GBoolExp a))
  | BoolOr (xs : List (GBoolExp a))
  | BoolNot (x : GBoolExp a)
  | BoolField (x : a)

/-- Modelled from the spec: `AnnBoolExpFld b v` (not in the sampled source) —
a leaf comparison of a boolean expression, holding the leaf values `v` that
the comparison operators carry. -/
structure AnnBoolExpFld (b : Backend) (v : Type) where
  column : b.ColumnInfo
  opValues : List v

/-- `AnnBoolExp b v = GBoolExp b (AnnBoolExpFld b v)`. -/
abbrev AnnBoolExp (b : Backend) (v : Type) := GBoolExp (AnnBoolExpFld b v)

/-- `annBoolExpTrue = gBoolExpTrue = BoolAnd []`: the always-true boolean
expression. -/
def annBoolExpTrue {b : Backend} {v : Type} : AnnBoolExp b v := .BoolAnd []

/-- `AnnColumnCaseBoolExpField b v`: the newtype wrapped around
`AnnBoolExpFld` used for column-redaction case expressions. -/
structure AnnColumnCaseBoolExpField (b : Backend) (v : Type) where
  _accColCaseBoolExpField : AnnBoolExpFld b v

/-- `AnnColumnCaseBoolExp b v = GBoolExp b (AnnColumnCaseBoolExpField b v)`. -/
abbrev AnnColumnCaseBoolExp (b : Backend) (v : Type) :=
  GBoolExp (AnnColumnCaseBoolExpField b v)

mutual

/-- Derived `Foldable (GBoolExp b)`, as a toList-style enumeration: the
fields carried by `a`-leaves, left to right. -/
def gBoolExpAList (f : a → List V) : GBoolExp a → List V
  | .BoolAnd xs => gBoolExpAListList f xs
  | .BoolOr xs => gBoolExpAListList f xs
  | .BoolNot x => gBoolExpAList f x
  | .BoolField x => f x

/-- Fold of `gBoolExpAList` over a list of boolean expressions. -/
def gBoolExpAListList (f : a → List V) : List (GBoolExp a) → List V
  | [] => []
  | x :: xs => gBoolExpAList f x ++ gBoolExpAListList f xs

end

/-- Leaf values of an `AnnBoolExp`, in derived-`Foldable` order. -/
def annBoolExpVList {b : Backend} (e : AnnBoolExp b v) : List v :=
  gBoolExpAList (fun fld => fld.opValues) e

/-- Leaf values of an `AnnColumnCaseBoolExp`, in derived-`Foldable` order. -/
def annColumnCaseBoolExpVList {b : Backend} (e : AnnColumnCaseBoolExp b v) : List v :=
  gBoolExpAList (fun fld => fld._accColCaseBoolExpField.opValues) e

-- Function arguments (Hasura.RQL.Types.Function; module not in the sampled source)

/-- Modelled from the spec: `FunctionArgumentExp b v` (backend type family,
not in the sampled source) — an argument expression that may hold a leaf
value `v` (e.g. Postgres' `ArgumentExp`). -/
inductive FunctionArgumentExp (v : Type)
  | AEInput (x : v)
  | AETableRow
  deriving Repr

/-- `FunctionArgsExpG a` from `Hasura.RQL.Types.Function`: positional
arguments followed by named arguments. -/
structure FunctionArgsExpG (a : Type) where
  positional : List a
  named : HashMap Text a

/-- `FunctionArgsExp b v = FunctionArgsExpG (FunctionArgumentExp b v)`. -/
abbrev FunctionArgsExp (v : Type) := FunctionArgsExpG (FunctionArgumentExp v)

/-- Leaf values of one argument expression. -/
def functionArgumentExpVList : FunctionArgumentExp v → List v
  | .AEInput x => [x]
  | .AETableRow => []

/-- Leaf values of a function-argument expression, in derived-`Foldable`
order: positional arguments first, then named arguments in iteration
order. -/
def functionArgsExpVList (fa : FunctionArgsExp v) : List v :=
  fa.positional.flatMap functionArgumentExpVList
    ++ (fa.named.values).flatMap functionArgumentExpVList

-- Native queries (Hasura.NativeQuery.IR; module not in the sampled source)

/-- Modelled from the spec: `NativeQuery b v` (not in the sampled source) —
a native-query from-clause, an interpolated query holding leaf values. -/
structure NativeQuery (b : Backend) (v : Type) where
  nqRoot : Text
  nqInterpolated : List v

/-- Leaf values of a native query. -/
def nativeQueryVList {b : Backend} (nq : NativeQuery b v) : List v :=
  nq.nqInterpolated

-- From clause

/-- `SelectFromG b v`: the four from-clause forms. -/
inductive SelectFromG (b : Backend) (v : Type) : Type
  | FromTable (t : b.TableName)
  | FromIdentifier (i : FIIdentifier)
  | FromFunction (fn : b.FunctionName) (args : FunctionArgsExp v)
      (defList : Option (List (b.Column × b.ScalarType)))
  | FromNativeQuery (nq : NativeQuery b v)

/-- Derived `Foldable (SelectFromG b)`: leaf values in constructor-field
order. -/
def selectFromVList {b : Backend} : SelectFromG b v → List v
  | .FromTable _ => []
  | .FromIdentifier _ => []
  | .FromFunction _ args _ => functionArgsExpVList args
  | .FromNativeQuery nq => nativeQueryVList nq

-- Permissions

/-- `TablePermG b v`: permission filter and optional limit. -/
structure TablePermG (b : Backend) (v : Type) where
  _tpFilter : AnnBoolExp b v
  _tpLimit : Option Int

/-- `noTablePermissions = TablePerm annBoolExpTrue Nothing`. -/
def noTablePermissions {b : Backend} {v : Type} : TablePermG b v :=
  ⟨annBoolExpTrue, none⟩

/-- Derived `Foldable (TablePermG b)`: the filter's leaves (the limit holds
no leaf values). -/
def tablePermVList {b : Backend} (p : TablePermG b v) : List v :=
  annBoolExpVList p._tpFilter

-- Order by (OrderByItemG is from Hasura.RQL.IR.OrderBy, not in the sampled source)

/-- Modelled from the spec: `OrderByItemG b a` from `Hasura.RQL.IR.OrderBy`
(not in the sampled source) — an order-by item: optional order type, the
ordering column payload, optional nulls ordering. -/
structure OrderByItemG (b : Backend) (a : Type) where
  obiType : Option b.BasicOrderType
  obiColumn : a
  obiNulls : Option b.NullsOrderType

/-- `AnnotatedAggregateOrderBy b`: count, or a named aggregate operator
applied to a column.  Contains no leaf values. -/
inductive AnnotatedAggregateOrderBy (b : Backend) : Type
  | AAOCount
  | AAOOp (op : Text) (retType : b.ColumnType) (col : b.ColumnInfo)

/-- `ComputedFieldOrderByElement b v`: order by a scalar computed field, or
by an aggregate of the table rows returned by the computed field (with the
returning table's permission filter). -/
inductive ComputedFieldOrderByElement (b : Backend) (v : Type) : Type
  | CFOBEScalar (st : b.ScalarType)
  | CFOBETableAggregation (t : b.TableName) (perm : AnnBoolExp b v)
      (agg : AnnotatedAggregateOrderBy b)

/-- `ComputedFieldOrderBy b v`. -/
structure ComputedFieldOrderBy (b : Backend) (v : Type) where
  _cfobXField : b.XComputedField
  _cfobName : ComputedFieldName
  _cfobFunction : b.FunctionName
  _cfobFunctionArgsExp : FunctionArgsExp v
  _cfobOrderByElement : ComputedFieldOrderByElement b v

/-- `AnnotatedOrderByElement b v`: the four-way tagged recursive order-by
structure (plain column / object relation / array aggregation / computed
field). -/
inductive AnnotatedOrderByElement (b : Backend) (v : Type) : Type
  | AOCColumn (ci : b.ColumnInfo)
  | AOCObjectRelation (ri : b.RelInfo) (perm : AnnBoolExp b v)
      (elem : AnnotatedOrderByElement b v)
  | AOCArrayAggregation (ri : b.RelInfo) (perm : AnnBoolExp b v)
      (agg : AnnotatedAggregateOrderBy b)
  | AOCComputedField (cf : ComputedFieldOrderBy b v)

/-- Derived `Foldable (ComputedFieldOrderByElement b)`: leaf values in
constructor-field order. -/
def computedFieldOrderByElementVList {b : Backend} :
    ComputedFieldOrderByElement b v → List v
  | .CFOBEScalar _ => []
  | .CFOBETableAggregation _ perm _ => annBoolExpVList perm

/-- Derived `Foldable (ComputedFieldOrderBy b)`: leaf values in field order
(function arguments, then the order-by element). -/
def computedFieldOrderByVList {b : Backend} (c : ComputedFieldOrderBy b v) :
    List v :=
  functionArgsExpVList c._cfobFunctionArgsExp
    ++ computedFieldOrderByElementVList c._cfobOrderByElement

/-- Derived `Foldable (AnnotatedOrderByElement b)`: leaf values in
constructor-field order. -/
def annotatedOrderByElementVList {b : Backend} :
    AnnotatedOrderByElement b v → List v
  | .AOCColumn _ => []
  | .AOCObjectRelation _ perm elem =>
      annBoolExpVList perm ++ annotatedOrderByElementVList elem
  | .AOCArrayAggregation _ perm _ => annBoolExpVList perm
  | .AOCComputedField cf => computedFieldOrderByVList cf

/-- Derived `Foldable (OrderByItemG b)` composed over a payload's own leaf
enumeration: only the `obiColumn` payload holds foldable content. -/
def orderByItemVList {b : Backend} (f : a → List V) (i : OrderByItemG b a) :
    List V :=
  f i.obiColumn

/-- `AnnotatedOrderByItemG b v = OrderByItemG b (AnnotatedOrderByElement b v)`. -/
abbrev AnnotatedOrderByItemG (b : Backend) (v : Type) :=
  OrderByItemG b (AnnotatedOrderByElement b v)

-- Select arguments

/-- `SelectArgsG b v`: where / order-by / limit / offset / distinct. -/
structure SelectArgsG (b : Backend) (v : Type) where
  _saWhere : Option (AnnBoolExp b v)
  _saOrderBy : Option (NEList (AnnotatedOrderByItemG b v))
  _saLimit : Option Int
  _saOffset : Option Int
  _saDistinct : Option (NEList b.Column)

/-- `noSelectArgs = SelectArgs Nothing Nothing Nothing Nothing Nothing`. -/
def noSelectArgs {b : Backend} {v : Type} : SelectArgsG b v :=
  ⟨none, none, none, none, none⟩

/-- Leaf values of an optional component. -/
def optionVList (f : a → List V) : Option a → List V
  | none => []
  | some x => f x

/-- Leaf values of a non-empty list of components, in order. -/
def neListVList (f : a → List V) (l : NEList a) : List V :=
  f l.head ++ l.tail.flatMap f

/-- Derived `Foldable (SelectArgsG b)`: leaf values in field order
(where-clause, then order-by items; limit/offset/distinct hold no leaf
values). -/
def selectArgsVList {b : Backend} (s : SelectArgsG b v) : List v :=
  optionVList annBoolExpVList s._saWhere
    ++ optionVList (neListVList (orderByItemVList annotatedOrderByElementVList))
        s._saOrderBy

-- Streaming

/-- `StreamCursorItem b`: cursor for a streaming subscription.  Contains no
leaf values (`ColumnValue b` is a concrete backend value, not a `v`). -/
structure StreamCursorItem (b : Backend) where
  _sciOrdering : CursorOrdering
  _sciColInfo : b.ColumnInfo
  _sciInitialValue : b.ColumnValue

/-- `SelectStreamArgsG b v`: streaming arguments. -/
structure SelectStreamArgsG (b : Backend) (v : Type) where
  _ssaWhere : Option (AnnBoolExp b v)
  _ssaBatchSize : Int
  _ssaCursorArg : StreamCursorItem b

/-- Derived `Foldable (SelectStreamArgsG b)`: only the where-clause holds
leaf values. -/
def selectStreamArgsVList {b : Backend} (s : SelectStreamArgsG b v) : List v :=
  optionVList annBoolExpVList s._ssaWhere

-- Relay split/slice

/-- `ConnectionSplitKind`. -/
inductive ConnectionSplitKind
  | CSKBefore
  | CSKAfter
  deriving DecidableEq, Repr

/-- `ConnectionSlice`. -/
inductive ConnectionSlice
  | SliceFirst (n : Int)
  | SliceLast (n : Int)
  deriving DecidableEq, Repr

/-- `ConnectionSplit b v`: a keyset-pagination boundary: kind, bound value,
and the order-by item it is paired with. -/
structure ConnectionSplit (b : Backend) (v : Type) where
  _csKind : ConnectionSplitKind
  _csValue : v
  _csOrderBy : AnnotatedOrderByItemG b v

/-- Derived `Foldable (ConnectionSplit b)`: the bound value, then the leaf
values inside the paired order-by item. -/
def connectionSplitVList {b : Backend} (s : ConnectionSplit b v) : List v :=
  [s._csValue] ++ orderByItemVList annotatedOrderByElementVList s._csOrderBy

-- Aggregate fields (no r/v content)

/-- `ColFld b`. -/
inductive ColFld (b : Backend) : Type
  | CFCol (c : b.Column) (t : b.ColumnType)
  | CFExp (t : Text)

/-- `AggregateOp b`. -/
structure AggregateOp (b : Backend) where
  _aoOp : Text
  _aoFields : Fields (ColFld b)

/-- `AggregateField b`: count, operator, or raw expression.  Contains no
`r` or `v` occurrences. -/
inductive AggregateField (b : Backend) : Type
  | AFCount (c : b.CountType)
  | AFOp (op : AggregateOp b)
  | AFExp (t : Text)

/-- `AggregateFields b = Fields (AggregateField b)`. -/
abbrev AggregateFields (b : Backend) := Fields (AggregateField b)

/-- `PageInfoField`. -/
inductive PageInfoField
  | PageInfoTypename (t : Text)
  | PageInfoHasNextPage
  | PageInfoHasPreviousPage
  | PageInfoStartCursor
  | PageInfoEndCursor
  deriving DecidableEq, Repr

/-- `PageInfoFields = Fields PageInfoField`. -/
abbrev PageInfoFields := Fields PageInfoField

-- Column fields and computed fields (leaf structures)

/-- `AnnColumnField b v`: column, type, as-text flag, scalar-selection
arguments, and the optional redaction case expression. -/
structure AnnColumnField (b : Backend) (v : Type) where
  _acfColumn : b.Column
  _acfType : b.ColumnType
  _acfAsText : Bool
  _acfArguments : Option b.ScalarSelectionArguments
  _acfCaseBoolExpression : Option (AnnColumnCaseBoolExp b v)

/-- Derived `Foldable (AnnColumnField b)`: only the case expression holds
leaf values. -/
def annColumnFieldVList {b : Backend} (c : AnnColumnField b v) : List v :=
  optionVList annColumnCaseBoolExpVList c._acfCaseBoolExpression

/-- `ComputedFieldScalarSelect b v`. -/
structure ComputedFieldScalarSelect (b : Backend) (v : Type) where
  _cfssFunction : b.FunctionName
  _cfssArguments : FunctionArgsExp v
  _cfssType : b.ScalarType
  _cfssScalarArguments : Option b.ScalarSelectionArguments

/-- Derived `Foldable (ComputedFieldScalarSelect b)`: only the function
arguments hold leaf values. -/
def computedFieldScalarSelectVList {b : Backend}
    (c : ComputedFieldScalarSelect b v) : List v :=
  functionArgsExpVList c._cfssArguments

/-- `RemoteRelationshipSelect b r`: required join fields and the remote
payload `r`. -/
structure RemoteRelationshipSelect (b : Backend) (r : Type) where
  _rrsLHSJoinFields : HashMap FieldName b.DBJoinField
  _rrsRelationship : r

-- The select root.
--
-- In the source, `AnnSelectG b f v` takes a field functor `f : Type -> Type`
-- and stores `Fields (f v)`.  Lean's inductive types cannot be parameterized
-- by an arbitrary functor that is later instantiated with a mutually
-- recursive type, so the embedding takes the already-applied field type
-- `fv := f v` as a plain `Type` parameter; the abbreviations
-- `AnnSimpleSelectG`, `AnnAggregateSelectG`, … recover the source's
-- instantiations.

/-- `AnnSelectG b f v`: field selection, from-clause, permission filter,
arguments, stringify-numerics flag, optional naming convention. -/
structure AnnSelectG (b : Backend) (fv : Type) (v : Type) where
  _asnFields : List (FieldName × fv)
  _asnFrom : SelectFromG b v
  _asnPerm : TablePermG b v
  _asnArgs : SelectArgsG b v
  _asnStrfyNum : StringifyNumbers
  _asnNamingConvention : Option NamingCase

/-- `AnnSelectStreamG b f v`: the streaming-subscription select root, with
the `XStreamingSubscription b` capability marker. -/
structure AnnSelectStreamG (b : Backend) (fv : Type) (v : Type) where
  _assnXStreamingSubscription : b.XStreamingSubscription
  _assnFields : List (FieldName × fv)
  _assnFrom : SelectFromG b v
  _assnPerm : TablePermG b v
  _assnArgs : SelectStreamArgsG b v
  _assnStrfyNum : StringifyNumbers

/-- `AnnRelationSelectG b a`: relationship name, column mapping, and the
nested select `a`. -/
structure AnnRelationSelectG (b : Backend) (a : Type) where
  _aarRelationshipName : RelName
  _aarColumnMapping : HashMap b.Column b.Column
  _aarAnnSelect : a

mutual

/-- `AnnFieldG b r v`: the seven-variant field vocabulary. -/
inductive AnnFieldG (b : Backend) (r : Type) (v : Type) : Type
  | AFColumn (col : AnnColumnField b v)
  | AFObjectRelation (objRel : AnnRelationSelectG b (AnnObjectSelectG b r v))
  | AFArrayRelation (arrRel : ArraySelectG b r v)
  | AFComputedField (x : b.XComputedField) (n : ComputedFieldName)
      (cf : ComputedFieldSelect b r v)
  | AFRemote (rem : RemoteRelationshipSelect b r)
  | AFNodeId (x : b.XRelay) (src : SourceName) (t : b.TableName)
      (pk : PrimaryKeyColumns b)
  | AFExpression (t : Text)

/-- `AnnObjectSelectG b r v`: fields, source table, and the table filter. -/
inductive AnnObjectSelectG (b : Backend) (r : Type) (v : Type) : Type
  | mk (_aosFields : List (FieldName × AnnFieldG b r v)) (_aosTableFrom : b.TableName)
      (_aosTableFilter : AnnBoolExp b v)

/-- `ArraySelectG b r v`: the three array-relation shapes.  `ASSimple` wraps
`ArrayRelationSelectG b r v = AnnRelationSelectG b (AnnSimpleSelectG b r v)`,
`ASAggregate` wraps `ArrayAggregateSelectG`, `ASConnection` wraps
`ArrayConnectionSelect`. -/
inductive ArraySelectG (b : Backend) (r : Type) (v : Type) : Type
  | ASSimple (s : AnnRelationSelectG b (AnnSelectG b (AnnFieldG b r v) v))
  | ASAggregate (s : AnnRelationSelectG b (AnnSelectG b (TableAggregateFieldG b r v) v))
  | ASConnection (s : AnnRelationSelectG b (ConnectionSelect b r v))

/-- `ComputedFieldSelect b r v`: scalar computed field (with optional
redaction case expression), or table-valued computed field. -/
inductive ComputedFieldSelect (b : Backend) (r : Type) (v : Type) : Type
  | CFSScalar (s : ComputedFieldScalarSelect b v)
      (caseBoolExp : Option (AnnColumnCaseBoolExp b v))
  | CFSTable (j : JsonAggSelect) (s : AnnSelectG b (AnnFieldG b r v) v)

/-- `TableAggregateFieldG b r v`: aggregate bag, nodes projection (gated by
`XNodesAgg b`), or raw expression. -/
inductive TableAggregateFieldG (b : Backend) (r : Type) (v : Type) : Type
  | TAFAgg (agg : AggregateFields b)
  | TAFNodes (x : b.XNodesAgg) (fields : List (FieldName × AnnFieldG b r v))
  | TAFExp (t : Text)

/-- `ConnectionSelect b r v`: the Relay connection wrapper (capability
marker, primary-key columns, optional split sequence, optional slice, and
the wrapped select). -/
inductive ConnectionSelect (b : Backend) (r : Type) (v : Type) : Type
  | mk (_csXRelay : b.XRelay) (_csPrimaryKeyColumns : PrimaryKeyColumns b)
      (_csSplit : Option (NEList (ConnectionSplit b v)))
      (_csSlice : Option ConnectionSlice)
      (_csSelect : AnnSelectG b (ConnectionField b r v) v)

/-- `ConnectionField b r v`: typename, page info, or edges. -/
inductive ConnectionField (b : Backend) (r : Type) (v : Type) : Type
  | ConnectionTypename (t : Text)
  | ConnectionPageInfo (p : PageInfoFields)
  | ConnectionEdges (edges : List (FieldName × EdgeField b r v))

/-- `EdgeField b r v`: typename, cursor, or the edge's node fields. -/
inductive EdgeField (b : Backend) (r : Type) (v : Type) : Type
  | EdgeTypename (t : Text)
  | EdgeCursor
  | EdgeNode (node : List (FieldName × AnnFieldG b r v))

end

/-- `AnnFieldsG b r v = Fields (AnnFieldG b r v)`. -/
abbrev AnnFieldsG (b : Backend) (r : Type) (v : Type) := Fields (AnnFieldG b r v)

/-- `AnnSimpleSelectG b r v = AnnSelectG b (AnnFieldG b r) v`. -/
abbrev AnnSimpleSelectG (b : Backend) (r : Type) (v : Type) :=
  AnnSelectG b (AnnFieldG b r v) v

/-- `AnnAggregateSelectG b r v = AnnSelectG b (TableAggregateFieldG b r) v`. -/
abbrev AnnAggregateSelectG (b : Backend) (r : Type) (v : Type) :=
  AnnSelectG b (TableAggregateFieldG b r v) v

/-- `AnnSimpleStreamSelectG b r v = AnnSelectStreamG b (AnnFieldG b r) v`. -/
abbrev AnnSimpleStreamSelectG (b : Backend) (r : Type) (v : Type) :=
  AnnSelectStreamG b (AnnFieldG b r v) v

/-- `ObjectRelationSelectG b r v = AnnRelationSelectG b (AnnObjectSelectG b r v)`. -/
abbrev ObjectRelationSelectG (b : Backend) (r : Type) (v : Type) :=
  AnnRelationSelectG b (AnnObjectSelectG b r v)

/-- `ArrayRelationSelectG b r v = AnnRelationSelectG b (AnnSimpleSelectG b r v)`. -/
abbrev ArrayRelationSelectG (b : Backend) (r : Type) (v : Type) :=
  AnnRelationSelectG b (AnnSimpleSelectG b r v)

/-- `ArrayAggregateSelectG b r v = AnnRelationSelectG b (AnnAggregateSelectG b r v)`. -/
abbrev ArrayAggregateSelectG (b : Backend) (r : Type) (v : Type) :=
  AnnRelationSelectG b (AnnAggregateSelectG b r v)

/-- `ArrayConnectionSelect b r v = AnnRelationSelectG b (ConnectionSelect b r v)`. -/
abbrev ArrayConnectionSelect (b : Backend) (r : Type) (v : Type) :=
  AnnRelationSelectG b (ConnectionSelect b r v)

/-- `ConnectionFields b r v = Fields (ConnectionField b r v)`. -/
abbrev ConnectionFields (b : Backend) (r : Type) (v : Type) :=
  Fields (ConnectionField b r v)

/-- `EdgeFields b r v = Fields (EdgeField b r v)`. -/
abbrev EdgeFields (b : Backend) (r : Type) (v : Type) := Fields (EdgeField b r v)

/-- Field accessor `_aosFields`. -/
def AnnObjectSelectG.aosFields {b : Backend} :
    AnnObjectSelectG b r v → AnnFieldsG b r v
  | .mk fs _ _ => fs

/-- Field accessor `_aosTableFrom`. -/
def AnnObjectSelectG.aosTableFrom {b : Backend} :
    AnnObjectSelectG b r v → b.TableName
  | .mk _ t _ => t

/-- Field accessor `_aosTableFilter`. -/
def AnnObjectSelectG.aosTableFilter {b : Backend} :
    AnnObjectSelectG b r v → AnnBoolExp b v
  | .mk _ _ f => f

/-- Field accessor `_csXRelay`. -/
def ConnectionSelect.csXRelay {b : Backend} :
    ConnectionSelect b r v → b.XRelay
  | .mk x _ _ _ _ => x

/-- Field accessor `_csPrimaryKeyColumns`. -/
def ConnectionSelect.csPrimaryKeyColumns {b : Backend} :
    ConnectionSelect b r v → PrimaryKeyColumns b
  | .mk _ pk _ _ _ => pk

/-- Field accessor `_csSplit`. -/
def ConnectionSelect.csSplit {b : Backend} :
    ConnectionSelect b r v → Option (NEList (ConnectionSplit b v))
  | .mk _ _ s _ _ => s

/-- Field accessor `_csSlice`. -/
def ConnectionSelect.csSlice {b : Backend} :
    ConnectionSelect b r v → Option ConnectionSlice
  | .mk _ _ _ s _ => s

/-- Field accessor `_csSelect`. -/
def ConnectionSelect.csSelect {b : Backend} :
    ConnectionSelect b r v → AnnSelectG b (ConnectionField b r v) v
  | .mk _ _ _ _ s => s

/-- `QueryDB b r v`: the top-level query node. -/
inductive QueryDB (b : Backend) (r : Type) (v : Type) : Type
  | QDBMultipleRows (s : AnnSimpleSelectG b r v)
  | QDBSingleRow (s : AnnSimpleSelectG b r v)
  | QDBAggregation (s : AnnAggregateSelectG b r v)
  | QDBConnection (s : ConnectionSelect b r v)
  | QDBStreamMultipleRows (s : AnnSimpleStreamSelectG b r v)

-- The bifold.
--
-- `foldMap h` of a container with a derived `Foldable` instance is the
-- monoid product of `h` over the container's toList enumeration; `foldMapL`
-- is that product.  The hand-written `Bifoldable` instances of the source
-- are transcribed below as one mutual block of `bifoldMap…` functions
-- (Haskell's `<>`/`mempty` become `*`/`1`).

/-- `foldMap` of a list-enumerated container: the monoid product of `h`
over the elements. -/
def foldMapL [Monoid M] (h : α → M) (l : List α) : M := (l.map h).prod

mutual

/-- `Bifoldable (AnnFieldG b)` (hand-written in the source):
`AFColumn` folds the column's values, `AFObjectRelation` folds the wrapped
object select, `AFArrayRelation`/`AFComputedField` delegate,
`AFRemote` folds the remote payload, `AFNodeId`/`AFExpression` are
`mempty`. -/
def bifoldMapAnnFieldG {b : Backend} [Monoid M] (f : R → M) (g : V → M) :
    AnnFieldG b R V → M
  | .AFColumn col => foldMapL g (annColumnFieldVList col)
  | .AFObjectRelation ⟨_, _, objSel⟩ => bifoldMapAnnObjectSelectG f g objSel
  | .AFArrayRelation arrRel => bifoldMapArraySelectG f g arrRel
  | .AFComputedField _ _ cf => bifoldMapComputedFieldSelect f g cf
  | .AFRemote rem => f rem._rrsRelationship
  | .AFNodeId _ _ _ _ => 1
  | .AFExpression _ => 1

/-- `foldMap (foldMap <dot> bifoldMap f g)` over a `Fields` list of
`AnnFieldG` entries (each entry is a pair whose second component is
folded). -/
def bifoldMapAnnFields {b : Backend} [Monoid M] (f : R → M) (g : V → M) :
    List (FieldName × AnnFieldG b R V) → M
  | [] => 1
  | fld :: rest => bifoldMapAnnFieldG f g fld.2 * bifoldMapAnnFields f g rest

/-- `Bifoldable (AnnObjectSelectG b)` (hand-written in the source):
`foldMap (foldMap <dot> bifoldMap f g) _aosFields <> foldMap (foldMap g)
_aosTableFilter`. -/
def bifoldMapAnnObjectSelectG {b : Backend} [Monoid M] (f : R → M) (g : V → M) :
    AnnObjectSelectG b R V → M
  | .mk fields _ tableFilter =>
      bifoldMapAnnFields f g fields * foldMapL g (annBoolExpVList tableFilter)

/-- `Bifoldable (ArraySelectG b)` (hand-written in the source): each shape
folds its wrapped select through `foldMap` over the relation wrapper. -/
def bifoldMapArraySelectG {b : Backend} [Monoid M] (f : R → M) (g : V → M) :
    ArraySelectG b R V → M
  | .ASSimple ⟨_, _, sel⟩ => bifoldMapAnnSimpleSelG f g sel
  | .ASAggregate ⟨_, _, sel⟩ => bifoldMapAnnAggregateSelG f g sel
  | .ASConnection ⟨_, _, sel⟩ => bifoldMapConnectionSelect f g sel

/-- `Bifoldable (ComputedFieldSelect b)` (hand-written in the source):
`CFSScalar` folds the scalar select then the case expression, `CFSTable`
folds the wrapped simple select. -/
def bifoldMapComputedFieldSelect {b : Backend} [Monoid M] (f : R → M) (g : V → M) :
    ComputedFieldSelect b R V → M
  | .CFSScalar cfsSelect caseBoolExp =>
      foldMapL g (computedFieldScalarSelectVList cfsSelect)
        * foldMapL g (optionVList annColumnCaseBoolExpVList caseBoolExp)
  | .CFSTable _ simpleSelect => bifoldMapAnnSimpleSelG f g simpleSelect

/-- `bifoldMapAnnSelectG` at `f := AnnFieldG b r`: fields, then from-clause,
then permission filter, then arguments. -/
def bifoldMapAnnSimpleSelG {b : Backend} [Monoid M] (f : R → M) (g : V → M) :
    AnnSelectG b (AnnFieldG b R V) V → M
  | ⟨fields, frm, perm, args, _, _⟩ =>
      bifoldMapAnnFields f g fields * foldMapL g (selectFromVList frm)
        * foldMapL g (tablePermVList perm) * foldMapL g (selectArgsVList args)

/-- `Bifoldable (TableAggregateFieldG b)` (hand-written in the source):
`TAFAgg`/`TAFExp` are `mempty`, `TAFNodes` folds its fields. -/
def bifoldMapTableAggregateFieldG {b : Backend} [Monoid M] (f : R → M) (g : V → M) :
    TableAggregateFieldG b R V → M
  | .TAFAgg _ => 1
  | .TAFNodes _ fields => bifoldMapAnnFields f g fields
  | .TAFExp _ => 1

/-- `foldMap (foldMap <dot> bifoldMap f g)` over a `Fields` list of
`TableAggregateFieldG` entries. -/
def bifoldMapTableAggFields {b : Backend} [Monoid M] (f : R → M) (g : V → M) :
    List (FieldName × TableAggregateFieldG b R V) → M
  | [] => 1
  | fld :: rest =>
      bifoldMapTableAggregateFieldG f g fld.2 * bifoldMapTableAggFields f g rest

/-- `bifoldMapAnnSelectG` at `f := TableAggregateFieldG b r`. -/
def bifoldMapAnnAggregateSelG {b : Backend} [Monoid M] (f : R → M) (g : V → M) :
    AnnSelectG b (TableAggregateFieldG b R V) V → M
  | ⟨fields, frm, perm, args, _, _⟩ =>
      bifoldMapTableAggFields f g fields * foldMapL g (selectFromVList frm)
        * foldMapL g (tablePermVList perm) * foldMapL g (selectArgsVList args)

/-- `Bifoldable (ConnectionSelect b)` (hand-written in the source):
`foldMap (foldMap <dot> foldMap g) _csSplit <> bifoldMapAnnSelectG f g
_csSelect`. -/
def bifoldMapConnectionSelect {b : Backend} [Monoid M] (f : R → M) (g : V → M) :
    ConnectionSelect b R V → M
  | .mk _ _ split _ sel =>
      foldMapL g (optionVList (neListVList connectionSplitVList) split)
        * bifoldMapConnAnnSelG f g sel

/-- `bifoldMapAnnSelectG` at `f := ConnectionField b r`. -/
def bifoldMapConnAnnSelG {b : Backend} [Monoid M] (f : R → M) (g : V → M) :
    AnnSelectG b (ConnectionField b R V) V → M
  | ⟨fields, frm, perm, args, _, _⟩ =>
      bifoldMapConnectionFields f g fields * foldMapL g (selectFromVList frm)
        * foldMapL g (tablePermVList perm) * foldMapL g (selectArgsVList args)

/-- `foldMap (foldMap <dot> bifoldMap f g)` over a `Fields` list of
`ConnectionField` entries. -/
def bifoldMapConnectionFields {b : Backend} [Monoid M] (f : R → M) (g : V → M) :
    List (FieldName × ConnectionField b R V) → M
  | [] => 1
  | fld :: rest =>
      bifoldMapConnectionField f g fld.2 * bifoldMapConnectionFields f g rest

/-- `Bifoldable (ConnectionField b)` (hand-written in the source):
typename/page-info are `mempty`, edges fold their edge fields. -/
def bifoldMapConnectionField {b : Backend} [Monoid M] (f : R → M) (g : V → M) :
    ConnectionField b R V → M
  | .ConnectionTypename _ => 1
  | .ConnectionPageInfo _ => 1
  | .ConnectionEdges edgeFields => bifoldMapEdgeFields f g edgeFields

/-- `foldMap (foldMap <dot> bifoldMap f g)` over a `Fields` list of
`EdgeField` entries. -/
def bifoldMapEdgeFields {b : Backend} [Monoid M] (f : R → M) (g : V → M) :
    List (FieldName × EdgeField b R V) → M
  | [] => 1
  | fld :: rest => bifoldMapEdgeField f g fld.2 * bifoldMapEdgeFields f g rest

/-- `Bifoldable (EdgeField b)` (hand-written in the source):
typename/cursor are `mempty`, `EdgeNode` folds its fields. -/
def bifoldMapEdgeField {b : Backend} [Monoid M] (f : R → M) (g : V → M) :
    EdgeField b R V → M
  | .EdgeTypename _ => 1
  | .EdgeCursor => 1
  | .EdgeNode annFields => bifoldMapAnnFields f g annFields

end

/-- `bifoldMapAnnSelectStreamG` at `f := AnnFieldG b r`: fields, then
from-clause, then permission filter, then streaming arguments. -/
def bifoldMapAnnSimpleStreamSelG {b : Backend} [Monoid M] (f : R → M) (g : V → M)
    (s : AnnSelectStreamG b (AnnFieldG b R V) V) : M :=
  bifoldMapAnnFields f g s._assnFields * foldMapL g (selectFromVList s._assnFrom)
    * foldMapL g (tablePermVList s._assnPerm)
    * foldMapL g (selectStreamArgsVList s._assnArgs)

/-- `Bifoldable (QueryDB b)` (hand-written in the source): each variant
delegates to the select fold of its payload. -/
def bifoldMapQueryDB {b : Backend} [Monoid M] (f : R → M) (g : V → M) :
    QueryDB b R V → M
  | .QDBMultipleRows annSel => bifoldMapAnnSimpleSelG f g annSel
  | .QDBSingleRow annSel => bifoldMapAnnSimpleSelG f g annSel
  | .QDBAggregation annSel => bifoldMapAnnAggregateSelG f g annSel
  | .QDBConnection connSel => bifoldMapConnectionSelect f g connSel
  | .QDBStreamMultipleRows annSel => bifoldMapAnnSimpleStreamSelG f g annSel

/-- `bifoldMapAnnSelectG` from the source, generic in the field type: the
field folds (in field-map iteration order), then the from-clause fold, then
the permission-filter fold, then the arguments fold.  `bifoldField` stands
for `bifoldMap f g` at the field functor. -/
def bifoldMapAnnSelectG {b : Backend} [Monoid M] (bifoldField : FV → M)
    (g : V → M) (s : AnnSelectG b FV V) : M :=
  foldMapL (fun fld => bifoldField fld.2) s._asnFields
    * foldMapL g (selectFromVList s._asnFrom)
    * foldMapL g (tablePermVList s._asnPerm)
    * foldMapL g (selectArgsVList s._asnArgs)

/-- `bifoldMapAnnSelectStreamG` from the source, generic in the field type:
field folds, then from-clause, then permission filter, then streaming
arguments. -/
def bifoldMapAnnSelectStreamG {b : Backend} [Monoid M] (bifoldField : FV → M)
    (g : V → M) (s : AnnSelectStreamG b FV V) : M :=
  foldMapL (fun fld => bifoldField fld.2) s._assnFields
    * foldMapL g (selectFromVList s._assnFrom)
    * foldMapL g (tablePermVList s._assnPerm)
    * foldMapL g (selectStreamArgsVList s._assnArgs)

-- Mechanical occurrence enumeration.
--
-- `occs…` lists, for each constructor, the `r`- and `v`-occurrences of
-- every declared field, in declaration order, with nothing omitted: it is
-- read off the data type declarations, not off the hand-written
-- `Bifoldable` instances.  Fields whose types contain no `r` and no `v`
-- (names, capability markers, column infos, …) contribute nothing and are
-- bound anonymously.

mutual

/-- All `r`/`v` occurrences of an `AnnFieldG`, per its declaration:
`AFColumn` carries `v`s in its case expression; `AFObjectRelation`,
`AFArrayRelation`, `AFComputedField` carry them in their nested selects;
`AFRemote` carries exactly its relationship `r`; `AFNodeId` and
`AFExpression` carry none. -/
def occsAnnFieldG {b : Backend} : AnnFieldG b R V → List (R ⊕ V)
  | .AFColumn col => (annColumnFieldVList col).map Sum.inr
  | .AFObjectRelation ⟨_, _, objSel⟩ => occsAnnObjectSelectG objSel
  | .AFArrayRelation arrRel => occsArraySelectG arrRel
  | .AFComputedField _ _ cf => occsComputedFieldSelect cf
  | .AFRemote rem => [Sum.inl rem._rrsRelationship]
  | .AFNodeId _ _ _ _ => []
  | .AFExpression _ => []

/-- All occurrences of a `Fields` list of `AnnFieldG` entries, in list
order. -/
def occsAnnFields {b : Backend} :
    List (FieldName × AnnFieldG b R V) → List (R ⊕ V)
  | [] => []
  | fld :: rest => occsAnnFieldG fld.2 ++ occsAnnFields rest

/-- All occurrences of an `AnnObjectSelectG`, per its declaration: the
fields, then (the table name has none), then the table filter. -/
def occsAnnObjectSelectG {b : Backend} : AnnObjectSelectG b R V → List (R ⊕ V)
  | .mk fields _ tableFilter =>
      occsAnnFields fields ++ (annBoolExpVList tableFilter).map Sum.inr

/-- All occurrences of an `ArraySelectG`, per its declaration: each shape
wraps one nested select (the relation wrapper's name and column mapping
have none). -/
def occsArraySelectG {b : Backend} : ArraySelectG b R V → List (R ⊕ V)
  | .ASSimple ⟨_, _, sel⟩ => occsAnnSimpleSelG sel
  | .ASAggregate ⟨_, _, sel⟩ => occsAnnAggregateSelG sel
  | .ASConnection ⟨_, _, sel⟩ => occsConnectionSelect sel

/-- All occurrences of a `ComputedFieldSelect`, per its declaration:
`CFSScalar` carries `v`s in its scalar select and case expression,
`CFSTable` wraps a simple select. -/
def occsComputedFieldSelect {b : Backend} :
    ComputedFieldSelect b R V → List (R ⊕ V)
  | .CFSScalar cfsSelect caseBoolExp =>
      (computedFieldScalarSelectVList cfsSelect).map Sum.inr
        ++ (optionVList annColumnCaseBoolExpVList caseBoolExp).map Sum.inr
  | .CFSTable _ simpleSelect => occsAnnSimpleSelG simpleSelect

/-- All occurrences of an `AnnSelectG` over `AnnFieldG` fields, per its
declaration: fields, from-clause, permission filter, arguments (the
stringify flag and naming convention have none). -/
def occsAnnSimpleSelG {b : Backend} :
    AnnSelectG b (AnnFieldG b R V) V → List (R ⊕ V)
  | ⟨fields, frm, perm, args, _, _⟩ =>
      occsAnnFields fields ++ (selectFromVList frm).map Sum.inr
        ++ (tablePermVList perm).map Sum.inr
        ++ (selectArgsVList args).map Sum.inr

/-- All occurrences of a `TableAggregateFieldG`, per its declaration:
`TAFAgg`'s aggregate fields and `TAFExp`'s text contain no `r`/`v`;
`TAFNodes` carries its node fields. -/
def occsTableAggregateFieldG {b : Backend} :
    TableAggregateFieldG b R V → List (R ⊕ V)
  | .TAFAgg _ => []
  | .TAFNodes _ fields => occsAnnFields fields
  | .TAFExp _ => []

/-- All occurrences of a `Fields` list of `TableAggregateFieldG` entries. -/
def occsTableAggFields {b : Backend} :
    List (FieldName × TableAggregateFieldG b R V) → List (R ⊕ V)
  | [] => []
  | fld :: rest => occsTableAggregateFieldG fld.2 ++ occsTableAggFields rest

/-- All occurrences of an `AnnSelectG` over `TableAggregateFieldG` fields. -/
def occsAnnAggregateSelG {b : Backend} :
    AnnSelectG b (TableAggregateFieldG b R V) V → List (R ⊕ V)
  | ⟨fields, frm, perm, args, _, _⟩ =>
      occsTableAggFields fields ++ (selectFromVList frm).map Sum.inr
        ++ (tablePermVList perm).map Sum.inr
        ++ (selectArgsVList args).map Sum.inr

/-- All occurrences of a `ConnectionSelect`, per its declaration: the relay
marker and primary-key columns have none, the splits carry `v`s, the slice
has none, and the wrapped select follows. -/
def occsConnectionSelect {b : Backend} : ConnectionSelect b R V → List (R ⊕ V)
  | .mk _ _ split _ sel =>
      (optionVList (neListVList connectionSplitVList) split).map Sum.inr
        ++ occsConnAnnSelG sel

/-- All occurrences of an `AnnSelectG` over `ConnectionField` fields. -/
def occsConnAnnSelG {b : Backend} :
    AnnSelectG b (ConnectionField b R V) V → List (R ⊕ V)
  | ⟨fields, frm, perm, args, _, _⟩ =>
      occsConnectionFields fields ++ (selectFromVList frm).map Sum.inr
        ++ (tablePermVList perm).map Sum.inr
        ++ (selectArgsVList args).map Sum.inr

/-- All occurrences of a `Fields` list of `ConnectionField` entries. -/
def occsConnectionFields {b : Backend} :
    List (FieldName × ConnectionField b R V) → List (R ⊕ V)
  | [] => []
  | fld :: rest => occsConnectionField fld.2 ++ occsConnectionFields rest

/-- All occurrences of a `ConnectionField`, per its declaration: typename
and page-info fields carry no `r`/`v`, edges carry theirs. -/
def occsConnectionField {b : Backend} : ConnectionField b R V → List (R ⊕ V)
  | .ConnectionTypename _ => []
  | .ConnectionPageInfo _ => []
  | .ConnectionEdges edgeFields => occsEdgeFields edgeFields

/-- All occurrences of a `Fields` list of `EdgeField` entries. -/
def occsEdgeFields {b : Backend} :
    List (FieldName × EdgeField b R V) → List (R ⊕ V)
  | [] => []
  | fld :: rest => occsEdgeField fld.2 ++ occsEdgeFields rest

/-- All occurrences of an `EdgeField`, per its declaration: typename and
cursor carry no `r`/`v`, the node carries its fields'. -/
def occsEdgeField {b : Backend} : EdgeField b R V → List (R ⊕ V)
  | .EdgeTypename _ => []
  | .EdgeCursor => []
  | .EdgeNode annFields => occsAnnFields annFields

end

/-- All occurrences of an `AnnSelectStreamG` over `AnnFieldG` fields, per
its declaration: the capability marker has none, then fields, from-clause,
permission filter, and streaming arguments (the stringify flag has none). -/
def occsAnnSimpleStreamSelG {b : Backend}
    (s : AnnSelectStreamG b (AnnFieldG b R V) V) : List (R ⊕ V) :=
  occsAnnFields s._assnFields ++ (selectFromVList s._assnFrom).map Sum.inr
    ++ (tablePermVList s._assnPerm).map Sum.inr
    ++ (selectStreamArgsVList s._assnArgs).map Sum.inr

/-- All occurrences of a `QueryDB`, per its declaration: each variant wraps
exactly one select. -/
def occsQueryDB {b : Backend} : QueryDB b R V → List (R ⊕ V)
  | .QDBMultipleRows annSel => occsAnnSimpleSelG annSel
  | .QDBSingleRow annSel => occsAnnSimpleSelG annSel
  | .QDBAggregation annSel => occsAnnAggregateSelG annSel
  | .QDBConnection connSel => occsConnectionSelect connSel
  | .QDBStreamMultipleRows annSel => occsAnnSimpleStreamSelG annSel

/-- `foldMapL` distributes over list append. -/
theorem foldMapL_append [Monoid M] (h : α → M) (l1 l2 : List α) :
    foldMapL h (l1 ++ l2) = foldMapL h l1 * foldMapL h l2 := by
  simp [foldMapL]

/-- `foldMapL` of `Sum.elim f g` over a list of right injections is the
fold of `g`. -/
theorem foldMapL_map_inr [Monoid M] (f : R → M) (g : V → M) (l : List V) :
    foldMapL (Sum.elim f g) (l.map Sum.inr) = foldMapL g l := by
  simp [foldMapL, List.map_map]

mutual

/-- The hand-written `AnnFieldG` bifold is the monoid product over the
mechanical occurrence list. -/
theorem bifold_occs_annFieldG {b : Backend} [Monoid M] (f : R → M) (g : V → M) :
    (x : AnnFieldG b R V) →
      bifoldMapAnnFieldG f g x = foldMapL (Sum.elim f g) (occsAnnFieldG x)
  | .AFColumn col => by
      simp [bifoldMapAnnFieldG, occsAnnFieldG, foldMapL_map_inr]
  | .AFObjectRelation ⟨rn, cm, objSel⟩ => by
      simpa [bifoldMapAnnFieldG, occsAnnFieldG] using
        bifold_occs_annObjectSelectG f g objSel
  | .AFArrayRelation arrRel => by
      simpa [bifoldMapAnnFieldG, occsAnnFieldG] using
        bifold_occs_arraySelectG f g arrRel
  | .AFComputedField x n cf => by
      simpa [bifoldMapAnnFieldG, occsAnnFieldG] using
        bifold_occs_computedFieldSelect f g cf
  | .AFRemote rem => by
      simp [bifoldMapAnnFieldG, occsAnnFieldG, foldMapL]
  | .AFNodeId x src t pk => by
      simp [bifoldMapAnnFieldG, occsAnnFieldG, foldMapL]
  | .AFExpression t => by
      simp [bifoldMapAnnFieldG, occsAnnFieldG, foldMapL]

/-- Fields-list version of `bifold_occs_annFieldG`. -/
theorem bifold_occs_annFields {b : Backend} [Monoid M] (f : R → M) (g : V → M) :
    (l : List (FieldName × AnnFieldG b R V)) →
      bifoldMapAnnFields f g l = foldMapL (Sum.elim f g) (occsAnnFields l)
  | [] => by simp [bifoldMapAnnFields, occsAnnFields, foldMapL]
  | fld :: rest => by
      simp [bifoldMapAnnFields, occsAnnFields, foldMapL_append,
        bifold_occs_annFieldG f g fld.2, bifold_occs_annFields f g rest]

/-- The hand-written `AnnObjectSelectG` bifold is the monoid product over
the mechanical occurrence list. -/
theorem bifold_occs_annObjectSelectG {b : Backend} [Monoid M] (f : R → M)
    (g : V → M) :
    (x : AnnObjectSelectG b R V) →
      bifoldMapAnnObjectSelectG f g x = foldMapL (Sum.elim f g) (occsAnnObjectSelectG x)
  | .mk fields tf filt => by
      simp [bifoldMapAnnObjectSelectG, occsAnnObjectSelectG, foldMapL_append,
        foldMapL_map_inr, bifold_occs_annFields f g fields, mul_assoc]

/-- The hand-written `ArraySelectG` bifold is the monoid product over the
mechanical occurrence list. -/
theorem bifold_occs_arraySelectG {b : Backend} [Monoid M] (f : R → M) (g : V → M) :
    (x : ArraySelectG b R V) →
      bifoldMapArraySelectG f g x = foldMapL (Sum.elim f g) (occsArraySelectG x)
  | .ASSimple ⟨rn, cm, sel⟩ => by
      simpa [bifoldMapArraySelectG, occsArraySelectG] using
        bifold_occs_annSimpleSelG f g sel
  | .ASAggregate ⟨rn, cm, sel⟩ => by
      simpa [bifoldMapArraySelectG, occsArraySelectG] using
        bifold_occs_annAggregateSelG f g sel
  | .ASConnection ⟨rn, cm, sel⟩ => by
      simpa [bifoldMapArraySelectG, occsArraySelectG] using
        bifold_occs_connectionSelect f g sel

/-- The hand-written `ComputedFieldSelect` bifold is the monoid product over
the mechanical occurrence list. -/
theorem bifold_occs_computedFieldSelect {b : Backend} [Monoid M] (f : R → M)
    (g : V → M) :
    (x : ComputedFieldSelect b R V) →
      bifoldMapComputedFieldSelect f g x
        = foldMapL (Sum.elim f g) (occsComputedFieldSelect x)
  | .CFSScalar cfsSelect caseBoolExp => by
      simp [bifoldMapComputedFieldSelect, occsComputedFieldSelect,
        foldMapL_append, foldMapL_map_inr]
  | .CFSTable j simpleSelect => by
      simpa [bifoldMapComputedFieldSelect, occsComputedFieldSelect] using
        bifold_occs_annSimpleSelG f g simpleSelect

/-- The simple-select fold is the monoid product over the mechanical
occurrence list. -/
theorem bifold_occs_annSimpleSelG {b : Backend} [Monoid M] (f : R → M)
    (g : V → M) :
    (s : AnnSelectG b (AnnFieldG b R V) V) →
      bifoldMapAnnSimpleSelG f g s = foldMapL (Sum.elim f g) (occsAnnSimpleSelG s)
  | ⟨fields, frm, perm, args, strfy, nc⟩ => by
      simp [bifoldMapAnnSimpleSelG, occsAnnSimpleSelG, foldMapL_append,
        foldMapL_map_inr, bifold_occs_annFields f g fields, mul_assoc]

/-- The hand-written `TableAggregateFieldG` bifold is the monoid product
over the mechanical occurrence list. -/
theorem bifold_occs_tableAggregateFieldG {b : Backend} [Monoid M] (f : R → M)
    (g : V → M) :
    (x : TableAggregateFieldG b R V) →
      bifoldMapTableAggregateFieldG f g x
        = foldMapL (Sum.elim f g) (occsTableAggregateFieldG x)
  | .TAFAgg agg => by
      simp [bifoldMapTableAggregateFieldG, occsTableAggregateFieldG, foldMapL]
  | .TAFNodes x fields => by
      simpa [bifoldMapTableAggregateFieldG, occsTableAggregateFieldG] using
        bifold_occs_annFields f g fields
  | .TAFExp t => by
      simp [bifoldMapTableAggregateFieldG, occsTableAggregateFieldG, foldMapL]

/-- Fields-list version of `bifold_occs_tableAggregateFieldG`. -/
theorem bifold_occs_tableAggFields {b : Backend} [Monoid M] (f : R → M)
    (g : V → M) :
    (l : List (FieldName × TableAggregateFieldG b R V)) →
      bifoldMapTableAggFields f g l = foldMapL (Sum.elim f g) (occsTableAggFields l)
  | [] => by simp [bifoldMapTableAggFields, occsTableAggFields, foldMapL]
  | fld :: rest => by
      simp [bifoldMapTableAggFields, occsTableAggFields, foldMapL_append,
        bifold_occs_tableAggregateFieldG f g fld.2,
        bifold_occs_tableAggFields f g rest]

/-- The aggregate-select fold is the monoid product over the mechanical
occurrence list. -/
theorem bifold_occs_annAggregateSelG {b : Backend} [Monoid M] (f : R → M)
    (g : V → M) :
    (s : AnnSelectG b (TableAggregateFieldG b R V) V) →
      bifoldMapAnnAggregateSelG f g s
        = foldMapL (Sum.elim f g) (occsAnnAggregateSelG s)
  | ⟨fields, frm, perm, args, strfy, nc⟩ => by
      simp [bifoldMapAnnAggregateSelG, occsAnnAggregateSelG, foldMapL_append,
        foldMapL_map_inr, bifold_occs_tableAggFields f g fields, mul_assoc]

/-- The hand-written `ConnectionSelect` bifold is the monoid product over
the mechanical occurrence list. -/
theorem bifold_occs_connectionSelect {b : Backend} [Monoid M] (f : R → M)
    (g : V → M) :
    (x : ConnectionSelect b R V) →
      bifoldMapConnectionSelect f g x
        = foldMapL (Sum.elim f g) (occsConnectionSelect x)
  | .mk x pk split slice sel => by
      simp [bifoldMapConnectionSelect, occsConnectionSelect, foldMapL_append,
        foldMapL_map_inr, bifold_occs_connAnnSelG f g sel, mul_assoc]

/-- The connection-select inner fold is the monoid product over the
mechanical occurrence list. -/
theorem bifold_occs_connAnnSelG {b : Backend} [Monoid M] (f : R → M)
    (g : V → M) :
    (s : AnnSelectG b (ConnectionField b R V) V) →
      bifoldMapConnAnnSelG f g s = foldMapL (Sum.elim f g) (occsConnAnnSelG s)
  | ⟨fields, frm, perm, args, strfy, nc⟩ => by
      simp [bifoldMapConnAnnSelG, occsConnAnnSelG, foldMapL_append,
        foldMapL_map_inr, bifold_occs_connectionFields f g fields, mul_assoc]

/-- Fields-list version of `bifold_occs_connectionField`. -/
theorem bifold_occs_connectionFields {b : Backend} [Monoid M] (f : R → M)
    (g : V → M) :
    (l : List (FieldName × ConnectionField b R V)) →
      bifoldMapConnectionFields f g l
        = foldMapL (Sum.elim f g) (occsConnectionFields l)
  | [] => by simp [bifoldMapConnectionFields, occsConnectionFields, foldMapL]
  | fld :: rest => by
      simp [bifoldMapConnectionFields, occsConnectionFields, foldMapL_append,
        bifold_occs_connectionField f g fld.2,
        bifold_occs_connectionFields f g rest]

/-- The hand-written `ConnectionField` bifold is the monoid product over
the mechanical occurrence list. -/
theorem bifold_occs_connectionField {b : Backend} [Monoid M] (f : R → M)
    (g : V → M) :
    (x : ConnectionField b R V) →
      bifoldMapConnectionField f g x
        = foldMapL (Sum.elim f g) (occsConnectionField x)
  | .ConnectionTypename t => by
      simp [bifoldMapConnectionField, occsConnectionField, foldMapL]
  | .ConnectionPageInfo p => by
      simp [bifoldMapConnectionField, occsConnectionField, foldMapL]
  | .ConnectionEdges edgeFields => by
      simpa [bifoldMapConnectionField, occsConnectionField] using
        bifold_occs_edgeFields f g edgeFields

/-- Fields-list version of `bifold_occs_edgeField`. -/
theorem bifold_occs_edgeFields {b : Backend} [Monoid M] (f : R → M) (g : V → M) :
    (l : List (FieldName × EdgeField b R V)) →
      bifoldMapEdgeFields f g l = foldMapL (Sum.elim f g) (occsEdgeFields l)
  | [] => by simp [bifoldMapEdgeFields, occsEdgeFields, foldMapL]
  | fld :: rest => by
      simp [bifoldMapEdgeFields, occsEdgeFields, foldMapL_append,
        bifold_occs_edgeField f g fld.2, bifold_occs_edgeFields f g rest]

/-- The hand-written `EdgeField` bifold is the monoid product over the
mechanical occurrence list. -/
theorem bifold_occs_edgeField {b : Backend} [Monoid M] (f : R → M) (g : V → M) :
    (x : EdgeField b R V) →
      bifoldMapEdgeField f g x = foldMapL (Sum.elim f g) (occsEdgeField x)
  | .EdgeTypename t => by simp [bifoldMapEdgeField, occsEdgeField, foldMapL]
  | .EdgeCursor => by simp [bifoldMapEdgeField, occsEdgeField, foldMapL]
  | .EdgeNode annFields => by
      simpa [bifoldMapEdgeField, occsEdgeField] using
        bifold_occs_annFields f g annFields

end

/-- The stream-select fold is the monoid product over the mechanical
occurrence list. -/
theorem bifold_occs_annSimpleStreamSelG {b : Backend} [Monoid M] (f : R → M)
    (g : V → M) (s : AnnSelectStreamG b (AnnFieldG b R V) V) :
    bifoldMapAnnSimpleStreamSelG f g s
      = foldMapL (Sum.elim f g) (occsAnnSimpleStreamSelG s) := by
  simp [bifoldMapAnnSimpleStreamSelG, occsAnnSimpleStreamSelG, foldMapL_append,
    foldMapL_map_inr, bifold_occs_annFields f g s._assnFields, mul_assoc]

/-- The hand-written `QueryDB` bifold is the monoid product over the
mechanical occurrence list. -/
theorem bifold_occs_queryDB {b : Backend} [Monoid M] (f : R → M) (g : V → M) :
    (q : QueryDB b R V) →
      bifoldMapQueryDB f g q = foldMapL (Sum.elim f g) (occsQueryDB q)
  | .QDBMultipleRows annSel => by
      simpa [bifoldMapQueryDB, occsQueryDB] using
        bifold_occs_annSimpleSelG f g annSel
  | .QDBSingleRow annSel => by
      simpa [bifoldMapQueryDB, occsQueryDB] using
        bifold_occs_annSimpleSelG f g annSel
  | .QDBAggregation annSel => by
      simpa [bifoldMapQueryDB, occsQueryDB] using
        bifold_occs_annAggregateSelG f g annSel
  | .QDBConnection connSel => by
      simpa [bifoldMapQueryDB, occsQueryDB] using
        bifold_occs_connectionSelect f g connSel
  | .QDBStreamMultipleRows annSel => by
      simpa [bifoldMapQueryDB, occsQueryDB] using
        bifold_occs_annSimpleStreamSelG f g annSel

-- The functor over the leaf type `v` (GHC's `deriving stock Functor`):
-- each `map…` function applies `h` to every `v` occurrence and rebuilds the
-- same constructor with all other fields unchanged.

/-- Map of a non-empty list. -/
def NEList.map (h : α → β) (l : NEList α) : NEList β :=
  ⟨h l.head, l.tail.map h⟩

mutual

/-- Derived `Functor (GBoolExp b)` over the field type. -/
def mapGBoolExp (h : a → a2) : GBoolExp a → GBoolExp a2
  | .BoolAnd xs => .BoolAnd (mapGBoolExpList h xs)
  | .BoolOr xs => .BoolOr (mapGBoolExpList h xs)
  | .BoolNot x => .BoolNot (mapGBoolExp h x)
  | .BoolField x => .BoolField (h x)

/-- List version of `mapGBoolExp`. -/
def mapGBoolExpList (h : a → a2) : List (GBoolExp a) → List (GBoolExp a2)
  | [] => []
  | x :: xs => mapGBoolExp h x :: mapGBoolExpList h xs

end

/-- Derived `Functor` of `AnnBoolExp` over the leaf type. -/
def mapAnnBoolExp {b : Backend} (h : v → v2) (e : AnnBoolExp b v) :
    AnnBoolExp b v2 :=
  mapGBoolExp (fun fld => ⟨fld.column, fld.opValues.map h⟩) e

/-- Derived `Functor` of `AnnColumnCaseBoolExp` over the leaf type. -/
def mapAnnColumnCaseBoolExp {b : Backend} (h : v → v2)
    (e : AnnColumnCaseBoolExp b v) : AnnColumnCaseBoolExp b v2 :=
  mapGBoolExp
    (fun fld => ⟨⟨fld._accColCaseBoolExpField.column,
      fld._accColCaseBoolExpField.opValues.map h⟩⟩) e

/-- Derived `Functor (FunctionArgumentExp b)`. -/
def mapFunctionArgumentExp (h : v → v2) :
    FunctionArgumentExp v → FunctionArgumentExp v2
  | .AEInput x => .AEInput (h x)
  | .AETableRow => .AETableRow

/-- Derived `Functor` of `FunctionArgsExp` (positional and named values). -/
def mapFunctionArgsExp (h : v → v2) (fa : FunctionArgsExp v) :
    FunctionArgsExp v2 :=
  ⟨fa.positional.map (mapFunctionArgumentExp h),
    fa.named.map (fun kv => (kv.1, mapFunctionArgumentExp h kv.2))⟩

/-- Derived `Functor` of `NativeQuery`. -/
def mapNativeQuery {b : Backend} (h : v → v2) (nq : NativeQuery b v) :
    NativeQuery b v2 :=
  ⟨nq.nqRoot, nq.nqInterpolated.map h⟩

/-- Derived `Functor (SelectFromG b)`. -/
def mapSelectFromG {b : Backend} (h : v → v2) :
    SelectFromG b v → SelectFromG b v2
  | .FromTable t => .FromTable t
  | .FromIdentifier i => .FromIdentifier i
  | .FromFunction fn args defList => .FromFunction fn (mapFunctionArgsExp h args) defList
  | .FromNativeQuery nq => .FromNativeQuery (mapNativeQuery h nq)

/-- Derived `Functor (TablePermG b)`. -/
def mapTablePermG {b : Backend} (h : v → v2) (p : TablePermG b v) :
    TablePermG b v2 :=
  ⟨mapAnnBoolExp h p._tpFilter, p._tpLimit⟩

/-- Derived `Functor (ComputedFieldOrderByElement b)`. -/
def mapComputedFieldOrderByElement {b : Backend} (h : v → v2) :
    ComputedFieldOrderByElement b v → ComputedFieldOrderByElement b v2
  | .CFOBEScalar st => .CFOBEScalar st
  | .CFOBETableAggregation t perm agg =>
      .CFOBETableAggregation t (mapAnnBoolExp h perm) agg

/-- Derived `Functor (ComputedFieldOrderBy b)`. -/
def mapComputedFieldOrderBy {b : Backend} (h : v → v2)
    (c : ComputedFieldOrderBy b v) : ComputedFieldOrderBy b v2 :=
  ⟨c._cfobXField, c._cfobName, c._cfobFunction,
    mapFunctionArgsExp h c._cfobFunctionArgsExp,
    mapComputedFieldOrderByElement h c._cfobOrderByElement⟩

/-- Derived `Functor (AnnotatedOrderByElement b)`. -/
def mapAnnotatedOrderByElement {b : Backend} (h : v → v2) :
    AnnotatedOrderByElement b v → AnnotatedOrderByElement b v2
  | .AOCColumn ci => .AOCColumn ci
  | .AOCObjectRelation ri perm elem =>
      .AOCObjectRelation ri (mapAnnBoolExp h perm)
        (mapAnnotatedOrderByElement h elem)
  | .AOCArrayAggregation ri perm agg =>
      .AOCArrayAggregation ri (mapAnnBoolExp h perm) agg
  | .AOCComputedField cf => .AOCComputedField (mapComputedFieldOrderBy h cf)

/-- Derived `Functor (OrderByItemG b)` composed with a payload map. -/
def mapOrderByItem {b : Backend} (f : a → a2) (i : OrderByItemG b a) :
    OrderByItemG b a2 :=
  ⟨i.obiType, f i.obiColumn, i.obiNulls⟩

/-- Derived `Functor (SelectArgsG b)`. -/
def mapSelectArgsG {b : Backend} (h : v → v2) (s : SelectArgsG b v) :
    SelectArgsG b v2 :=
  ⟨s._saWhere.map (mapAnnBoolExp h),
    s._saOrderBy.map (NEList.map (mapOrderByItem (mapAnnotatedOrderByElement h))),
    s._saLimit, s._saOffset, s._saDistinct⟩

/-- Derived `Functor (SelectStreamArgsG b)`. -/
def mapSelectStreamArgsG {b : Backend} (h : v → v2) (s : SelectStreamArgsG b v) :
    SelectStreamArgsG b v2 :=
  ⟨s._ssaWhere.map (mapAnnBoolExp h), s._ssaBatchSize, s._ssaCursorArg⟩

/-- Derived `Functor (ConnectionSplit b)`. -/
def mapConnectionSplit {b : Backend} (h : v → v2) (s : ConnectionSplit b v) :
    ConnectionSplit b v2 :=
  ⟨s._csKind, h s._csValue,
    mapOrderByItem (mapAnnotatedOrderByElement h) s._csOrderBy⟩

/-- Derived `Functor (AnnColumnField b)`. -/
def mapAnnColumnField {b : Backend} (h : v → v2) (c : AnnColumnField b v) :
    AnnColumnField b v2 :=
  ⟨c._acfColumn, c._acfType, c._acfAsText, c._acfArguments,
    c._acfCaseBoolExpression.map (mapAnnColumnCaseBoolExp h)⟩

/-- Derived `Functor (ComputedFieldScalarSelect b)`. -/
def mapComputedFieldScalarSelect {b : Backend} (h : v → v2)
    (c : ComputedFieldScalarSelect b v) : ComputedFieldScalarSelect b v2 :=
  ⟨c._cfssFunction, mapFunctionArgsExp h c._cfssArguments, c._cfssType,
    c._cfssScalarArguments⟩

mutual

/-- Derived `Functor (AnnFieldG b r)` over the leaf type. -/
def mapAnnFieldG {b : Backend} (h : V → V2) : AnnFieldG b R V → AnnFieldG b R V2
  | .AFColumn col => .AFColumn (mapAnnColumnField h col)
  | .AFObjectRelation ⟨rn, cm, objSel⟩ =>
      .AFObjectRelation ⟨rn, cm, mapAnnObjectSelectG h objSel⟩
  | .AFArrayRelation arrRel => .AFArrayRelation (mapArraySelectG h arrRel)
  | .AFComputedField x n cf => .AFComputedField x n (mapComputedFieldSelect h cf)
  | .AFRemote rem => .AFRemote rem
  | .AFNodeId x src t pk => .AFNodeId x src t pk
  | .AFExpression t => .AFExpression t

/-- Fields-list version of `mapAnnFieldG`. -/
def mapAnnFields {b : Backend} (h : V → V2) :
    List (FieldName × AnnFieldG b R V) → List (FieldName × AnnFieldG b R V2)
  | [] => []
  | fld :: rest => (fld.1, mapAnnFieldG h fld.2) :: mapAnnFields h rest

/-- Derived `Functor (AnnObjectSelectG b r)`. -/
def mapAnnObjectSelectG {b : Backend} (h : V → V2) :
    AnnObjectSelectG b R V → AnnObjectSelectG b R V2
  | .mk fields tf filt => .mk (mapAnnFields h fields) tf (mapAnnBoolExp h filt)

/-- Derived `Functor (ArraySelectG b r)`. -/
def mapArraySelectG {b : Backend} (h : V → V2) :
    ArraySelectG b R V → ArraySelectG b R V2
  | .ASSimple ⟨rn, cm, sel⟩ => .ASSimple ⟨rn, cm, mapAnnSimpleSelG h sel⟩
  | .ASAggregate ⟨rn, cm, sel⟩ => .ASAggregate ⟨rn, cm, mapAnnAggregateSelG h sel⟩
  | .ASConnection ⟨rn, cm, sel⟩ => .ASConnection ⟨rn, cm, mapConnectionSelect h sel⟩

/-- Derived `Functor (ComputedFieldSelect b r)`. -/
def mapComputedFieldSelect {b : Backend} (h : V → V2) :
    ComputedFieldSelect b R V → ComputedFieldSelect b R V2
  | .CFSScalar cfsSelect caseBoolExp =>
      .CFSScalar (mapComputedFieldScalarSelect h cfsSelect)
        (caseBoolExp.map (mapAnnColumnCaseBoolExp h))
  | .CFSTable j simpleSelect => .CFSTable j (mapAnnSimpleSelG h simpleSelect)

/-- Derived `Functor` of the simple select. -/
def mapAnnSimpleSelG {b : Backend} (h : V → V2) :
    AnnSelectG b (AnnFieldG b R V) V → AnnSelectG b (AnnFieldG b R V2) V2
  | ⟨fields, frm, perm, args, strfy, nc⟩ =>
      ⟨mapAnnFields h fields, mapSelectFromG h frm, mapTablePermG h perm,
        mapSelectArgsG h args, strfy, nc⟩

/-- Derived `Functor (TableAggregateFieldG b r)`. -/
def mapTableAggregateFieldG {b : Backend} (h : V → V2) :
    TableAggregateFieldG b R V → TableAggregateFieldG b R V2
  | .TAFAgg agg => .TAFAgg agg
  | .TAFNodes x fields => .TAFNodes x (mapAnnFields h fields)
  | .TAFExp t => .TAFExp t

/-- Fields-list version of `mapTableAggregateFieldG`. -/
def mapTableAggFields {b : Backend} (h : V → V2) :
    List (FieldName × TableAggregateFieldG b R V)
      → List (FieldName × TableAggregateFieldG b R V2)
  | [] => []
  | fld :: rest => (fld.1, mapTableAggregateFieldG h fld.2) :: mapTableAggFields h rest

/-- Derived `Functor` of the aggregate select. -/
def mapAnnAggregateSelG {b : Backend} (h : V → V2) :
    AnnSelectG b (TableAggregateFieldG b R V) V
      → AnnSelectG b (TableAggregateFieldG b R V2) V2
  | ⟨fields, frm, perm, args, strfy, nc⟩ =>
      ⟨mapTableAggFields h fields, mapSelectFromG h frm, mapTablePermG h perm,
        mapSelectArgsG h args, strfy, nc⟩

/-- Derived `Functor (ConnectionSelect b r)`. -/
def mapConnectionSelect {b : Backend} (h : V → V2) :
    ConnectionSelect b R V → ConnectionSelect b R V2
  | .mk x pk split slice sel =>
      .mk x pk (split.map (NEList.map (mapConnectionSplit h))) slice
        (mapConnAnnSelG h sel)

/-- Derived `Functor` of the connection inner select. -/
def mapConnAnnSelG {b : Backend} (h : V → V2) :
    AnnSelectG b (ConnectionField b R V) V
      → AnnSelectG b (ConnectionField b R V2) V2
  | ⟨fields, frm, perm, args, strfy, nc⟩ =>
      ⟨mapConnectionFields h fields, mapSelectFromG h frm, mapTablePermG h perm,
        mapSelectArgsG h args, strfy, nc⟩

/-- Fields-list version of `mapConnectionField`. -/
def mapConnectionFields {b : Backend} (h : V → V2) :
    List (FieldName × ConnectionField b R V)
      → List (FieldName × ConnectionField b R V2)
  | [] => []
  | fld :: rest => (fld.1, mapConnectionField h fld.2) :: mapConnectionFields h rest

/-- Derived `Functor (ConnectionField b r)`. -/
def mapConnectionField {b : Backend} (h : V → V2) :
    ConnectionField b R V → ConnectionField b R V2
  | .ConnectionTypename t => .ConnectionTypename t
  | .ConnectionPageInfo p => .ConnectionPageInfo p
  | .ConnectionEdges edgeFields => .ConnectionEdges (mapEdgeFields h edgeFields)

/-- Fields-list version of `mapEdgeField`. -/
def mapEdgeFields {b : Backend} (h : V → V2) :
    List (FieldName × EdgeField b R V) → List (FieldName × EdgeField b R V2)
  | [] => []
  | fld :: rest => (fld.1, mapEdgeField h fld.2) :: mapEdgeFields h rest

/-- Derived `Functor (EdgeField b r)`. -/
def mapEdgeField {b : Backend} (h : V → V2) : EdgeField b R V → EdgeField b R V2
  | .EdgeTypename t => .EdgeTypename t
  | .EdgeCursor => .EdgeCursor
  | .EdgeNode annFields => .EdgeNode (mapAnnFields h annFields)

end

/-- Derived `Functor` of the stream select. -/
def mapAnnSimpleStreamSelG {b : Backend} (h : V → V2)
    (s : AnnSelectStreamG b (AnnFieldG b R V) V) :
    AnnSelectStreamG b (AnnFieldG b R V2) V2 :=
  ⟨s._assnXStreamingSubscription, mapAnnFields h s._assnFields,
    mapSelectFromG h s._assnFrom, mapTablePermG h s._assnPerm,
    mapSelectStreamArgsG h s._assnArgs, s._assnStrfyNum⟩

/-- Derived `Functor (QueryDB b r)` over the leaf type. -/
def mapQueryDB {b : Backend} (h : V → V2) : QueryDB b R V → QueryDB b R V2
  | .QDBMultipleRows annSel => .QDBMultipleRows (mapAnnSimpleSelG h annSel)
  | .QDBSingleRow annSel => .QDBSingleRow (mapAnnSimpleSelG h annSel)
  | .QDBAggregation annSel => .QDBAggregation (mapAnnAggregateSelG h annSel)
  | .QDBConnection connSel => .QDBConnection (mapConnectionSelect h connSel)
  | .QDBStreamMultipleRows annSel =>
      .QDBStreamMultipleRows (mapAnnSimpleStreamSelG h annSel)

-- Functor laws, leaf level.

mutual

/-- `mapGBoolExp` respects pointwise-equal field functions. -/
theorem mapGBoolExp_eq_of (f1 f2 : a → a2) (hf : ∀ x, f1 x = f2 x) :
    (e : GBoolExp a) → mapGBoolExp f1 e = mapGBoolExp f2 e
  | .BoolAnd xs => by simp [mapGBoolExp, mapGBoolExpList_eq_of f1 f2 hf xs]
  | .BoolOr xs => by simp [mapGBoolExp, mapGBoolExpList_eq_of f1 f2 hf xs]
  | .BoolNot x => by simp [mapGBoolExp, mapGBoolExp_eq_of f1 f2 hf x]
  | .BoolField x => by simp [mapGBoolExp, hf x]

/-- List version of `mapGBoolExp_eq_of`. -/
theorem mapGBoolExpList_eq_of (f1 f2 : a → a2) (hf : ∀ x, f1 x = f2 x) :
    (l : List (GBoolExp a)) → mapGBoolExpList f1 l = mapGBoolExpList f2 l
  | [] => by simp [mapGBoolExpList]
  | x :: xs => by
      simp [mapGBoolExpList, mapGBoolExp_eq_of f1 f2 hf x,
        mapGBoolExpList_eq_of f1 f2 hf xs]

end

mutual

/-- `mapGBoolExp` with a pointwise-identity field function is the
identity. -/
theorem mapGBoolExp_id_of (f : a → a) (hf : ∀ x, f x = x) :
    (e : GBoolExp a) → mapGBoolExp f e = e
  | .BoolAnd xs => by simp [mapGBoolExp, mapGBoolExpList_id_of f hf xs]
  | .BoolOr xs => by simp [mapGBoolExp, mapGBoolExpList_id_of f hf xs]
  | .BoolNot x => by simp [mapGBoolExp, mapGBoolExp_id_of f hf x]
  | .BoolField x => by simp [mapGBoolExp, hf x]

/-- List version of `mapGBoolExp_id_of`. -/
theorem mapGBoolExpList_id_of (f : a → a) (hf : ∀ x, f x = x) :
    (l : List (GBoolExp a)) → mapGBoolExpList f l = l
  | [] => by simp [mapGBoolExpList]
  | x :: xs => by
      simp [mapGBoolExpList, mapGBoolExp_id_of f hf x, mapGBoolExpList_id_of f hf xs]

end

mutual

/-- Two successive `mapGBoolExp`s fuse into one. -/
theorem mapGBoolExp_comp_apply (f : a → a2) (g : a2 → a3) :
    (e : GBoolExp a) →
      mapGBoolExp g (mapGBoolExp f e) = mapGBoolExp (fun x => g (f x)) e
  | .BoolAnd xs => by simp [mapGBoolExp, mapGBoolExpList_comp_apply f g xs]
  | .BoolOr xs => by simp [mapGBoolExp, mapGBoolExpList_comp_apply f g xs]
  | .BoolNot x => by simp [mapGBoolExp, mapGBoolExp_comp_apply f g x]
  | .BoolField x => by simp [mapGBoolExp]

/-- List version of `mapGBoolExp_comp_apply`. -/
theorem mapGBoolExpList_comp_apply (f : a → a2) (g : a2 → a3) :
    (l : List (GBoolExp a)) →
      mapGBoolExpList g (mapGBoolExpList f l) = mapGBoolExpList (fun x => g (f x)) l
  | [] => by simp [mapGBoolExpList]
  | x :: xs => by
      simp [mapGBoolExpList, mapGBoolExp_comp_apply f g x,
        mapGBoolExpList_comp_apply f g xs]

end

/-- Identity law for `mapAnnBoolExp`. -/
theorem mapAnnBoolExp_id {b : Backend} : ∀ e : AnnBoolExp b v, mapAnnBoolExp id e = e :=
  fun e => mapGBoolExp_id_of _ (fun fld => by cases fld; simp) e

/-- Composition law for `mapAnnBoolExp`. -/
theorem mapAnnBoolExp_comp {b : Backend} (f : v → v2) (g : v2 → v3)
    (e : AnnBoolExp b v) :
    mapAnnBoolExp g (mapAnnBoolExp f e) = mapAnnBoolExp (g ∘ f) e := by
  unfold mapAnnBoolExp
  rw [mapGBoolExp_comp_apply]
  exact mapGBoolExp_eq_of _ _ (fun fld => by cases fld; simp) e

/-- Identity law for `mapAnnColumnCaseBoolExp`. -/
theorem mapAnnColumnCaseBoolExp_id {b : Backend} :
    ∀ e : AnnColumnCaseBoolExp b v, mapAnnColumnCaseBoolExp id e = e :=
  fun e =>
    mapGBoolExp_id_of _ (fun fld => by cases fld with | mk i => cases i; simp) e

/-- Composition law for `mapAnnColumnCaseBoolExp`. -/
theorem mapAnnColumnCaseBoolExp_comp {b : Backend} (f : v → v2) (g : v2 → v3)
    (e : AnnColumnCaseBoolExp b v) :
    mapAnnColumnCaseBoolExp g (mapAnnColumnCaseBoolExp f e)
      = mapAnnColumnCaseBoolExp (g ∘ f) e := by
  unfold mapAnnColumnCaseBoolExp
  rw [mapGBoolExp_comp_apply]
  exact mapGBoolExp_eq_of _ _ (fun fld => by cases fld with | mk i => cases i; simp) e

/-- Identity law for `mapFunctionArgumentExp`. -/
theorem mapFunctionArgumentExp_id :
    ∀ e : FunctionArgumentExp v, mapFunctionArgumentExp id e = e
  | .AEInput x => by simp [mapFunctionArgumentExp]
  | .AETableRow => by simp [mapFunctionArgumentExp]

/-- Composition law for `mapFunctionArgumentExp`. -/
theorem mapFunctionArgumentExp_comp (f : v → v2) (g : v2 → v3) :
    ∀ e : FunctionArgumentExp v,
      mapFunctionArgumentExp g (mapFunctionArgumentExp f e)
        = mapFunctionArgumentExp (g ∘ f) e
  | .AEInput x => by simp [mapFunctionArgumentExp]
  | .AETableRow => by simp [mapFunctionArgumentExp]

/-- Map by a pointwise-identity function is the identity on lists. -/
theorem listMap_id_of (f : α → α) (hf : ∀ x, f x = x) :
    ∀ l : List α, l.map f = l
  | [] => by simp
  | x :: xs => by simp [hf x, listMap_id_of f hf xs]

/-- Maps by pointwise-equal functions agree on lists. -/
theorem listMap_eq_of (f1 f2 : α → β) (hf : ∀ x, f1 x = f2 x) :
    ∀ l : List α, l.map f1 = l.map f2
  | [] => by simp
  | x :: xs => by simp [hf x, listMap_eq_of f1 f2 hf xs]

/-- Identity law for `mapFunctionArgsExp`. -/
theorem mapFunctionArgsExp_id (fa : FunctionArgsExp v) :
    mapFunctionArgsExp id fa = fa := by
  cases fa with
  | mk pos named =>
      simp only [mapFunctionArgsExp, FunctionArgsExpG.mk.injEq]
      constructor
      · exact listMap_id_of _ mapFunctionArgumentExp_id pos
      · exact listMap_id_of _
          (fun kv => by cases kv; simp [mapFunctionArgumentExp_id]) named

/-- Composition law for `mapFunctionArgsExp`. -/
theorem mapFunctionArgsExp_comp (f : v → v2) (g : v2 → v3)
    (fa : FunctionArgsExp v) :
    mapFunctionArgsExp g (mapFunctionArgsExp f fa) = mapFunctionArgsExp (g ∘ f) fa := by
  cases fa with
  | mk pos named =>
      simp only [mapFunctionArgsExp, FunctionArgsExpG.mk.injEq, List.map_map]
      constructor
      · exact listMap_eq_of _ _
          (fun x => by simp [mapFunctionArgumentExp_comp f g x]) pos
      · exact listMap_eq_of _ _
          (fun kv => by cases kv; simp [mapFunctionArgumentExp_comp f g]) named

/-- Identity law for `mapNativeQuery`. -/
theorem mapNativeQuery_id {b : Backend} (nq : NativeQuery b v) :
    mapNativeQuery id nq = nq := by
  cases nq; simp [mapNativeQuery]

/-- Composition law for `mapNativeQuery`. -/
theorem mapNativeQuery_comp {b : Backend} (f : v → v2) (g : v2 → v3)
    (nq : NativeQuery b v) :
    mapNativeQuery g (mapNativeQuery f nq) = mapNativeQuery (g ∘ f) nq := by
  cases nq; simp [mapNativeQuery]

/-- Identity law for `mapSelectFromG`. -/
theorem mapSelectFromG_id {b : Backend} :
    ∀ s : SelectFromG b v, mapSelectFromG id s = s
  | .FromTable t => by simp [mapSelectFromG]
  | .FromIdentifier i => by simp [mapSelectFromG]
  | .FromFunction fn args defList => by
      simp [mapSelectFromG, mapFunctionArgsExp_id]
  | .FromNativeQuery nq => by simp [mapSelectFromG, mapNativeQuery_id]

/-- Composition law for `mapSelectFromG`. -/
theorem mapSelectFromG_comp {b : Backend} (f : v → v2) (g : v2 → v3) :
    ∀ s : SelectFromG b v,
      mapSelectFromG g (mapSelectFromG f s) = mapSelectFromG (g ∘ f) s
  | .FromTable t => by simp [mapSelectFromG]
  | .FromIdentifier i => by simp [mapSelectFromG]
  | .FromFunction fn args defList => by
      simp [mapSelectFromG, mapFunctionArgsExp_comp]
  | .FromNativeQuery nq => by simp [mapSelectFromG, mapNativeQuery_comp]

/-- Identity law for `mapTablePermG`. -/
theorem mapTablePermG_id {b : Backend} (p : TablePermG b v) :
    mapTablePermG id p = p := by
  cases p; simp [mapTablePermG, mapAnnBoolExp_id]

/-- Composition law for `mapTablePermG`. -/
theorem mapTablePermG_comp {b : Backend} (f : v → v2) (g : v2 → v3)
    (p : TablePermG b v) :
    mapTablePermG g (mapTablePermG f p) = mapTablePermG (g ∘ f) p := by
  cases p; simp [mapTablePermG, mapAnnBoolExp_comp]

/-- Identity law for `mapComputedFieldOrderByElement`. -/
theorem mapComputedFieldOrderByElement_id {b : Backend} :
    ∀ e : ComputedFieldOrderByElement b v, mapComputedFieldOrderByElement id e = e
  | .CFOBEScalar st => by simp [mapComputedFieldOrderByElement]
  | .CFOBETableAggregation t perm agg => by
      simp [mapComputedFieldOrderByElement, mapAnnBoolExp_id]

/-- Composition law for `mapComputedFieldOrderByElement`. -/
theorem mapComputedFieldOrderByElement_comp {b : Backend} (f : v → v2)
    (g : v2 → v3) :
    ∀ e : ComputedFieldOrderByElement b v,
      mapComputedFieldOrderByElement g (mapComputedFieldOrderByElement f e)
        = mapComputedFieldOrderByElement (g ∘ f) e
  | .CFOBEScalar st => by simp [mapComputedFieldOrderByElement]
  | .CFOBETableAggregation t perm agg => by
      simp [mapComputedFieldOrderByElement, mapAnnBoolExp_comp]

/-- Identity law for `mapComputedFieldOrderBy`. -/
theorem mapComputedFieldOrderBy_id {b : Backend} (c : ComputedFieldOrderBy b v) :
    mapComputedFieldOrderBy id c = c := by
  cases c
  simp [mapComputedFieldOrderBy, mapFunctionArgsExp_id,
    mapComputedFieldOrderByElement_id]

/-- Composition law for `mapComputedFieldOrderBy`. -/
theorem mapComputedFieldOrderBy_comp {b : Backend} (f : v → v2) (g : v2 → v3)
    (c : ComputedFieldOrderBy b v) :
    mapComputedFieldOrderBy g (mapComputedFieldOrderBy f c)
      = mapComputedFieldOrderBy (g ∘ f) c := by
  cases c
  simp [mapComputedFieldOrderBy, mapFunctionArgsExp_comp,
    mapComputedFieldOrderByElement_comp]

/-- Identity law for `mapAnnotatedOrderByElement`. -/
theorem mapAnnotatedOrderByElement_id {b : Backend} :
    ∀ e : AnnotatedOrderByElement b v, mapAnnotatedOrderByElement id e = e
  | .AOCColumn ci => by simp [mapAnnotatedOrderByElement]
  | .AOCObjectRelation ri perm elem => by
      simp [mapAnnotatedOrderByElement, mapAnnBoolExp_id,
        mapAnnotatedOrderByElement_id elem]
  | .AOCArrayAggregation ri perm agg => by
      simp [mapAnnotatedOrderByElement, mapAnnBoolExp_id]
  | .AOCComputedField cf => by
      simp [mapAnnotatedOrderByElement, mapComputedFieldOrderBy_id]

/-- Composition law for `mapAnnotatedOrderByElement`. -/
theorem mapAnnotatedOrderByElement_comp {b : Backend} (f : v → v2) (g : v2 → v3) :
    ∀ e : AnnotatedOrderByElement b v,
      mapAnnotatedOrderByElement g (mapAnnotatedOrderByElement f e)
        = mapAnnotatedOrderByElement (g ∘ f) e
  | .AOCColumn ci => by simp [mapAnnotatedOrderByElement]
  | .AOCObjectRelation ri perm elem => by
      simp [mapAnnotatedOrderByElement, mapAnnBoolExp_comp,
        mapAnnotatedOrderByElement_comp f g elem]
  | .AOCArrayAggregation ri perm agg => by
      simp [mapAnnotatedOrderByElement, mapAnnBoolExp_comp]
  | .AOCComputedField cf => by
      simp [mapAnnotatedOrderByElement, mapComputedFieldOrderBy_comp]

/-- Identity law for `mapOrderByItem` given one for the payload. -/
theorem mapOrderByItem_id {b : Backend} (f : a → a) (hf : ∀ x, f x = x)
    (i : OrderByItemG b a) : mapOrderByItem f i = i := by
  cases i; simp [mapOrderByItem, hf]

/-- Identity law for `NEList.map` given one for the elements. -/
theorem NEList.map_id_of (f : α → α) (hf : ∀ x, f x = x) (l : NEList α) :
    NEList.map f l = l := by
  cases l with
  | mk hd tl => simp [NEList.map, hf, listMap_id_of f hf tl]

/-- Composition of `NEList.map`s. -/
theorem NEList.map_map (f : α → β) (g : β → γ) (l : NEList α) :
    NEList.map g (NEList.map f l) = NEList.map (fun x => g (f x)) l := by
  cases l; simp [NEList.map]

/-- Identity law for `mapSelectArgsG`. -/
theorem mapSelectArgsG_id {b : Backend} (s : SelectArgsG b v) :
    mapSelectArgsG id s = s := by
  cases s with
  | mk w ob lim off dis =>
      simp [mapSelectArgsG]
      constructor
      · cases w <;> simp [mapAnnBoolExp_id]
      · cases ob with
        | none => simp
        | some l =>
            simp
            exact NEList.map_id_of _
              (fun i => mapOrderByItem_id _ mapAnnotatedOrderByElement_id i) l

/-- Composition law for `mapSelectArgsG`. -/
theorem mapSelectArgsG_comp {b : Backend} (f : v → v2) (g : v2 → v3)
    (s : SelectArgsG b v) :
    mapSelectArgsG g (mapSelectArgsG f s) = mapSelectArgsG (g ∘ f) s := by
  cases s with
  | mk w ob lim off dis =>
      simp [mapSelectArgsG]
      constructor
      · cases w <;> simp [mapAnnBoolExp_comp]
      · cases ob with
        | none => simp
        | some l =>
            simp [NEList.map_map]
            congr 1
            funext i
            cases i
            simp [mapOrderByItem, mapAnnotatedOrderByElement_comp]

/-- Identity law for `mapSelectStreamArgsG`. -/
theorem mapSelectStreamArgsG_id {b : Backend} (s : SelectStreamArgsG b v) :
    mapSelectStreamArgsG id s = s := by
  cases s with
  | mk w bs c => cases w <;> simp [mapSelectStreamArgsG, mapAnnBoolExp_id]

/-- Composition law for `mapSelectStreamArgsG`. -/
theorem mapSelectStreamArgsG_comp {b : Backend} (f : v → v2) (g : v2 → v3)
    (s : SelectStreamArgsG b v) :
    mapSelectStreamArgsG g (mapSelectStreamArgsG f s)
      = mapSelectStreamArgsG (g ∘ f) s := by
  cases s with
  | mk w bs c => cases w <;> simp [mapSelectStreamArgsG, mapAnnBoolExp_comp]

/-- Identity law for `mapConnectionSplit`. -/
theorem mapConnectionSplit_id {b : Backend} (s : ConnectionSplit b v) :
    mapConnectionSplit id s = s := by
  cases s
  simp [mapConnectionSplit,
    mapOrderByItem_id _ mapAnnotatedOrderByElement_id]

/-- Composition law for `mapConnectionSplit`. -/
theorem mapConnectionSplit_comp {b : Backend} (f : v → v2) (g : v2 → v3)
    (s : ConnectionSplit b v) :
    mapConnectionSplit g (mapConnectionSplit f s) = mapConnectionSplit (g ∘ f) s := by
  cases s with
  | mk kind val ob =>
      cases ob
      simp [mapConnectionSplit, mapOrderByItem, mapAnnotatedOrderByElement_comp]

/-- Identity law for `mapAnnColumnField`. -/
theorem mapAnnColumnField_id {b : Backend} (c : AnnColumnField b v) :
    mapAnnColumnField id c = c := by
  cases c with
  | mk col t asText args caseB =>
      cases caseB <;> simp [mapAnnColumnField, mapAnnColumnCaseBoolExp_id]

/-- Composition law for `mapAnnColumnField`. -/
theorem mapAnnColumnField_comp {b : Backend} (f : v → v2) (g : v2 → v3)
    (c : AnnColumnField b v) :
    mapAnnColumnField g (mapAnnColumnField f c) = mapAnnColumnField (g ∘ f) c := by
  cases c with
  | mk col t asText args caseB =>
      cases caseB <;> simp [mapAnnColumnField, mapAnnColumnCaseBoolExp_comp]

/-- Identity law for `mapComputedFieldScalarSelect`. -/
theorem mapComputedFieldScalarSelect_id {b : Backend}
    (c : ComputedFieldScalarSelect b v) :
    mapComputedFieldScalarSelect id c = c := by
  cases c; simp [mapComputedFieldScalarSelect, mapFunctionArgsExp_id]

/-- Composition law for `mapComputedFieldScalarSelect`. -/
theorem mapComputedFieldScalarSelect_comp {b : Backend} (f : v → v2) (g : v2 → v3)
    (c : ComputedFieldScalarSelect b v) :
    mapComputedFieldScalarSelect g (mapComputedFieldScalarSelect f c)
      = mapComputedFieldScalarSelect (g ∘ f) c := by
  cases c; simp [mapComputedFieldScalarSelect, mapFunctionArgsExp_comp]

-- Functor identity law, the recursive family.

mutual

/-- Identity law for `mapAnnFieldG`. -/
theorem mapAnnFieldG_id {b : Backend} :
    (x : AnnFieldG b R V) → mapAnnFieldG id x = x
  | .AFColumn col => by simp [mapAnnFieldG, mapAnnColumnField_id]
  | .AFObjectRelation ⟨rn, cm, objSel⟩ => by
      simp [mapAnnFieldG, mapAnnObjectSelectG_id objSel]
  | .AFArrayRelation arrRel => by
      simp [mapAnnFieldG, mapArraySelectG_id arrRel]
  | .AFComputedField x n cf => by
      simp [mapAnnFieldG, mapComputedFieldSelect_id cf]
  | .AFRemote rem => by simp [mapAnnFieldG]
  | .AFNodeId x src t pk => by simp [mapAnnFieldG]
  | .AFExpression t => by simp [mapAnnFieldG]

/-- Identity law for `mapAnnFields`. -/
theorem mapAnnFields_id {b : Backend} :
    (l : List (FieldName × AnnFieldG b R V)) → mapAnnFields id l = l
  | [] => by simp [mapAnnFields]
  | fld :: rest => by
      simp [mapAnnFields, mapAnnFieldG_id fld.2, mapAnnFields_id rest]

/-- Identity law for `mapAnnObjectSelectG`. -/
theorem mapAnnObjectSelectG_id {b : Backend} :
    (x : AnnObjectSelectG b R V) → mapAnnObjectSelectG id x = x
  | .mk fields tf filt => by
      simp [mapAnnObjectSelectG, mapAnnFields_id fields, mapAnnBoolExp_id]

/-- Identity law for `mapArraySelectG`. -/
theorem mapArraySelectG_id {b : Backend} :
    (x : ArraySelectG b R V) → mapArraySelectG id x = x
  | .ASSimple ⟨rn, cm, sel⟩ => by
      simp [mapArraySelectG, mapAnnSimpleSelG_id sel]
  | .ASAggregate ⟨rn, cm, sel⟩ => by
      simp [mapArraySelectG, mapAnnAggregateSelG_id sel]
  | .ASConnection ⟨rn, cm, sel⟩ => by
      simp [mapArraySelectG, mapConnectionSelect_id sel]

/-- Identity law for `mapComputedFieldSelect`. -/
theorem mapComputedFieldSelect_id {b : Backend} :
    (x : ComputedFieldSelect b R V) → mapComputedFieldSelect id x = x
  | .CFSScalar cfsSelect caseBoolExp => by
      cases caseBoolExp <;>
        simp [mapComputedFieldSelect, mapComputedFieldScalarSelect_id,
          mapAnnColumnCaseBoolExp_id]
  | .CFSTable j simpleSelect => by
      simp [mapComputedFieldSelect, mapAnnSimpleSelG_id simpleSelect]

/-- Identity law for `mapAnnSimpleSelG`. -/
theorem mapAnnSimpleSelG_id {b : Backend} :
    (s : AnnSelectG b (AnnFieldG b R V) V) → mapAnnSimpleSelG id s = s
  | ⟨fields, frm, perm, args, strfy, nc⟩ => by
      simp [mapAnnSimpleSelG, mapAnnFields_id fields, mapSelectFromG_id,
        mapTablePermG_id, mapSelectArgsG_id]

/-- Identity law for `mapTableAggregateFieldG`. -/
theorem mapTableAggregateFieldG_id {b : Backend} :
    (x : TableAggregateFieldG b R V) → mapTableAggregateFieldG id x = x
  | .TAFAgg agg => by simp [mapTableAggregateFieldG]
  | .TAFNodes x fields => by
      simp [mapTableAggregateFieldG, mapAnnFields_id fields]
  | .TAFExp t => by simp [mapTableAggregateFieldG]

/-- Identity law for `mapTableAggFields`. -/
theorem mapTableAggFields_id {b : Backend} :
    (l : List (FieldName × TableAggregateFieldG b R V)) → mapTableAggFields id l = l
  | [] => by simp [mapTableAggFields]
  | fld :: rest => by
      simp [mapTableAggFields, mapTableAggregateFieldG_id fld.2,
        mapTableAggFields_id rest]

/-- Identity law for `mapAnnAggregateSelG`. -/
theorem mapAnnAggregateSelG_id {b : Backend} :
    (s : AnnSelectG b (TableAggregateFieldG b R V) V) → mapAnnAggregateSelG id s = s
  | ⟨fields, frm, perm, args, strfy, nc⟩ => by
      simp [mapAnnAggregateSelG, mapTableAggFields_id fields, mapSelectFromG_id,
        mapTablePermG_id, mapSelectArgsG_id]

/-- Identity law for `mapConnectionSelect`. -/
theorem mapConnectionSelect_id {b : Backend} :
    (x : ConnectionSelect b R V) → mapConnectionSelect id x = x
  | .mk x pk split slice sel => by
      cases split with
      | none => simp [mapConnectionSelect, mapConnAnnSelG_id sel]
      | some l =>
          simp [mapConnectionSelect, mapConnAnnSelG_id sel,
            NEList.map_id_of _ mapConnectionSplit_id l]

/-- Identity law for `mapConnAnnSelG`. -/
theorem mapConnAnnSelG_id {b : Backend} :
    (s : AnnSelectG b (ConnectionField b R V) V) → mapConnAnnSelG id s = s
  | ⟨fields, frm, perm, args, strfy, nc⟩ => by
      simp [mapConnAnnSelG, mapConnectionFields_id fields, mapSelectFromG_id,
        mapTablePermG_id, mapSelectArgsG_id]

/-- Identity law for `mapConnectionFields`. -/
theorem mapConnectionFields_id {b : Backend} :
    (l : List (FieldName × ConnectionField b R V)) → mapConnectionFields id l = l
  | [] => by simp [mapConnectionFields]
  | fld :: rest => by
      simp [mapConnectionFields, mapConnectionField_id fld.2,
        mapConnectionFields_id rest]

/-- Identity law for `mapConnectionField`. -/
theorem mapConnectionField_id {b : Backend} :
    (x : ConnectionField b R V) → mapConnectionField id x = x
  | .ConnectionTypename t => by simp [mapConnectionField]
  | .ConnectionPageInfo p => by simp [mapConnectionField]
  | .ConnectionEdges edgeFields => by
      simp [mapConnectionField, mapEdgeFields_id edgeFields]

/-- Identity law for `mapEdgeFields`. -/
theorem mapEdgeFields_id {b : Backend} :
    (l : List (FieldName × EdgeField b R V)) → mapEdgeFields id l = l
  | [] => by simp [mapEdgeFields]
  | fld :: rest => by
      simp [mapEdgeFields, mapEdgeField_id fld.2, mapEdgeFields_id rest]

/-- Identity law for `mapEdgeField`. -/
theorem mapEdgeField_id {b : Backend} :
    (x : EdgeField b R V) → mapEdgeField id x = x
  | .EdgeTypename t => by simp [mapEdgeField]
  | .EdgeCursor => by simp [mapEdgeField]
  | .EdgeNode annFields => by simp [mapEdgeField, mapAnnFields_id annFields]

end

/-- Identity law for `mapAnnSimpleStreamSelG`. -/
theorem mapAnnSimpleStreamSelG_id {b : Backend}
    (s : AnnSelectStreamG b (AnnFieldG b R V) V) :
    mapAnnSimpleStreamSelG id s = s := by
  cases s with
  | mk x fields frm perm args strfy =>
      simp [mapAnnSimpleStreamSelG, mapAnnFields_id fields, mapSelectFromG_id,
        mapTablePermG_id, mapSelectStreamArgsG_id]

/-- Identity law for `mapQueryDB`. -/
theorem mapQueryDB_id {b : Backend} : (q : QueryDB b R V) → mapQueryDB id q = q
  | .QDBMultipleRows annSel => by simp [mapQueryDB, mapAnnSimpleSelG_id annSel]
  | .QDBSingleRow annSel => by simp [mapQueryDB, mapAnnSimpleSelG_id annSel]
  | .QDBAggregation annSel => by simp [mapQueryDB, mapAnnAggregateSelG_id annSel]
  | .QDBConnection connSel => by simp [mapQueryDB, mapConnectionSelect_id connSel]
  | .QDBStreamMultipleRows annSel => by
      simp [mapQueryDB, mapAnnSimpleStreamSelG_id annSel]

-- Functor composition law, the recursive family.

mutual

/-- Composition law for `mapAnnFieldG`. -/
theorem mapAnnFieldG_comp {b : Backend} (f : V → V2) (g : V2 → V3) :
    (x : AnnFieldG b R V) →
      mapAnnFieldG g (mapAnnFieldG f x) = mapAnnFieldG (g ∘ f) x
  | .AFColumn col => by simp [mapAnnFieldG, mapAnnColumnField_comp]
  | .AFObjectRelation ⟨rn, cm, objSel⟩ => by
      simp [mapAnnFieldG, mapAnnObjectSelectG_comp f g objSel]
  | .AFArrayRelation arrRel => by
      simp [mapAnnFieldG, mapArraySelectG_comp f g arrRel]
  | .AFComputedField x n cf => by
      simp [mapAnnFieldG, mapComputedFieldSelect_comp f g cf]
  | .AFRemote rem => by simp [mapAnnFieldG]
  | .AFNodeId x src t pk => by simp [mapAnnFieldG]
  | .AFExpression t => by simp [mapAnnFieldG]

/-- Composition law for `mapAnnFields`. -/
theorem mapAnnFields_comp {b : Backend} (f : V → V2) (g : V2 → V3) :
    (l : List (FieldName × AnnFieldG b R V)) →
      mapAnnFields g (mapAnnFields f l) = mapAnnFields (g ∘ f) l
  | [] => by simp [mapAnnFields]
  | fld :: rest => by
      simp [mapAnnFields, mapAnnFieldG_comp f g fld.2, mapAnnFields_comp f g rest]

/-- Composition law for `mapAnnObjectSelectG`. -/
theorem mapAnnObjectSelectG_comp {b : Backend} (f : V → V2) (g : V2 → V3) :
    (x : AnnObjectSelectG b R V) →
      mapAnnObjectSelectG g (mapAnnObjectSelectG f x) = mapAnnObjectSelectG (g ∘ f) x
  | .mk fields tf filt => by
      simp [mapAnnObjectSelectG, mapAnnFields_comp f g fields, mapAnnBoolExp_comp]

/-- Composition law for `mapArraySelectG`. -/
theorem mapArraySelectG_comp {b : Backend} (f : V → V2) (g : V2 → V3) :
    (x : ArraySelectG b R V) →
      mapArraySelectG g (mapArraySelectG f x) = mapArraySelectG (g ∘ f) x
  | .ASSimple ⟨rn, cm, sel⟩ => by
      simp [mapArraySelectG, mapAnnSimpleSelG_comp f g sel]
  | .ASAggregate ⟨rn, cm, sel⟩ => by
      simp [mapArraySelectG, mapAnnAggregateSelG_comp f g sel]
  | .ASConnection ⟨rn, cm, sel⟩ => by
      simp [mapArraySelectG, mapConnectionSelect_comp f g sel]

/-- Composition law for `mapComputedFieldSelect`. -/
theorem mapComputedFieldSelect_comp {b : Backend} (f : V → V2) (g : V2 → V3) :
    (x : ComputedFieldSelect b R V) →
      mapComputedFieldSelect g (mapComputedFieldSelect f x)
        = mapComputedFieldSelect (g ∘ f) x
  | .CFSScalar cfsSelect caseBoolExp => by
      cases caseBoolExp <;>
        simp [mapComputedFieldSelect, mapComputedFieldScalarSelect_comp,
          mapAnnColumnCaseBoolExp_comp]
  | .CFSTable j simpleSelect => by
      simp [mapComputedFieldSelect, mapAnnSimpleSelG_comp f g simpleSelect]

/-- Composition law for `mapAnnSimpleSelG`. -/
theorem mapAnnSimpleSelG_comp {b : Backend} (f : V → V2) (g : V2 → V3) :
    (s : AnnSelectG b (AnnFieldG b R V) V) →
      mapAnnSimpleSelG g (mapAnnSimpleSelG f s) = mapAnnSimpleSelG (g ∘ f) s
  | ⟨fields, frm, perm, args, strfy, nc⟩ => by
      simp [mapAnnSimpleSelG, mapAnnFields_comp f g fields, mapSelectFromG_comp,
        mapTablePermG_comp, mapSelectArgsG_comp]

/-- Composition law for `mapTableAggregateFieldG`. -/
theorem mapTableAggregateFieldG_comp {b : Backend} (f : V → V2) (g : V2 → V3) :
    (x : TableAggregateFieldG b R V) →
      mapTableAggregateFieldG g (mapTableAggregateFieldG f x)
        = mapTableAggregateFieldG (g ∘ f) x
  | .TAFAgg agg => by simp [mapTableAggregateFieldG]
  | .TAFNodes x fields => by
      simp [mapTableAggregateFieldG, mapAnnFields_comp f g fields]
  | .TAFExp t => by simp [mapTableAggregateFieldG]

/-- Composition law for `mapTableAggFields`. -/
theorem mapTableAggFields_comp {b : Backend} (f : V → V2) (g : V2 → V3) :
    (l : List (FieldName × TableAggregateFieldG b R V)) →
      mapTableAggFields g (mapTableAggFields f l) = mapTableAggFields (g ∘ f) l
  | [] => by simp [mapTableAggFields]
  | fld :: rest => by
      simp [mapTableAggFields, mapTableAggregateFieldG_comp f g fld.2,
        mapTableAggFields_comp f g rest]

/-- Composition law for `mapAnnAggregateSelG`. -/
theorem mapAnnAggregateSelG_comp {b : Backend} (f : V → V2) (g : V2 → V3) :
    (s : AnnSelectG b (TableAggregateFieldG b R V) V) →
      mapAnnAggregateSelG g (mapAnnAggregateSelG f s) = mapAnnAggregateSelG (g ∘ f) s
  | ⟨fields, frm, perm, args, strfy, nc⟩ => by
      simp [mapAnnAggregateSelG, mapTableAggFields_comp f g fields,
        mapSelectFromG_comp, mapTablePermG_comp, mapSelectArgsG_comp]

/-- Composition law for `mapConnectionSelect`. -/
theorem mapConnectionSelect_comp {b : Backend} (f : V → V2) (g : V2 → V3) :
    (x : ConnectionSelect b R V) →
      mapConnectionSelect g (mapConnectionSelect f x) = mapConnectionSelect (g ∘ f) x
  | .mk x pk split slice sel => by
      cases split with
      | none => simp [mapConnectionSelect, mapConnAnnSelG_comp f g sel]
      | some l =>
          simp [mapConnectionSelect, mapConnAnnSelG_comp f g sel, NEList.map_map]
          exact congrArg (NEList.map · l) (funext fun s => mapConnectionSplit_comp f g s)

/-- Composition law for `mapConnAnnSelG`. -/
theorem mapConnAnnSelG_comp {b : Backend} (f : V → V2) (g : V2 → V3) :
    (s : AnnSelectG b (ConnectionField b R V) V) →
      mapConnAnnSelG g (mapConnAnnSelG f s) = mapConnAnnSelG (g ∘ f) s
  | ⟨fields, frm, perm, args, strfy, nc⟩ => by
      simp [mapConnAnnSelG, mapConnectionFields_comp f g fields,
        mapSelectFromG_comp, mapTablePermG_comp, mapSelectArgsG_comp]

/-- Composition law for `mapConnectionFields`. -/
theorem mapConnectionFields_comp {b : Backend} (f : V → V2) (g : V2 → V3) :
    (l : List (FieldName × ConnectionField b R V)) →
      mapConnectionFields g (mapConnectionFields f l) = mapConnectionFields (g ∘ f) l
  | [] => by simp [mapConnectionFields]
  | fld :: rest => by
      simp [mapConnectionFields, mapConnectionField_comp f g fld.2,
        mapConnectionFields_comp f g rest]

/-- Composition law for `mapConnectionField`. -/
theorem mapConnectionField_comp {b : Backend} (f : V → V2) (g : V2 → V3) :
    (x : ConnectionField b R V) →
      mapConnectionField g (mapConnectionField f x) = mapConnectionField (g ∘ f) x
  | .ConnectionTypename t => by simp [mapConnectionField]
  | .ConnectionPageInfo p => by simp [mapConnectionField]
  | .ConnectionEdges edgeFields => by
      simp [mapConnectionField, mapEdgeFields_comp f g edgeFields]

/-- Composition law for `mapEdgeFields`. -/
theorem mapEdgeFields_comp {b : Backend} (f : V → V2) (g : V2 → V3) :
    (l : List (FieldName × EdgeField b R V)) →
      mapEdgeFields g (mapEdgeFields f l) = mapEdgeFields (g ∘ f) l
  | [] => by simp [mapEdgeFields]
  | fld :: rest => by
      simp [mapEdgeFields, mapEdgeField_comp f g fld.2, mapEdgeFields_comp f g rest]

/-- Composition law for `mapEdgeField`. -/
theorem mapEdgeField_comp {b : Backend} (f : V → V2) (g : V2 → V3) :
    (x : EdgeField b R V) →
      mapEdgeField g (mapEdgeField f x) = mapEdgeField (g ∘ f) x
  | .EdgeTypename t => by simp [mapEdgeField]
  | .EdgeCursor => by simp [mapEdgeField]
  | .EdgeNode annFields => by simp [mapEdgeField, mapAnnFields_comp f g annFields]

end

/-- Composition law for `mapAnnSimpleStreamSelG`. -/
theorem mapAnnSimpleStreamSelG_comp {b : Backend} (f : V → V2) (g : V2 → V3)
    (s : AnnSelectStreamG b (AnnFieldG b R V) V) :
    mapAnnSimpleStreamSelG g (mapAnnSimpleStreamSelG f s)
      = mapAnnSimpleStreamSelG (g ∘ f) s := by
  cases s with
  | mk x fields frm perm args strfy =>
      simp [mapAnnSimpleStreamSelG, mapAnnFields_comp f g fields,
        mapSelectFromG_comp, mapTablePermG_comp, mapSelectStreamArgsG_comp]

/-- Composition law for `mapQueryDB`. -/
theorem mapQueryDB_comp {b : Backend} (f : V → V2) (g : V2 → V3) :
    (q : QueryDB b R V) →
      mapQueryDB g (mapQueryDB f q) = mapQueryDB (g ∘ f) q
  | .QDBMultipleRows annSel => by simp [mapQueryDB, mapAnnSimpleSelG_comp f g annSel]
  | .QDBSingleRow annSel => by simp [mapQueryDB, mapAnnSimpleSelG_comp f g annSel]
  | .QDBAggregation annSel => by
      simp [mapQueryDB, mapAnnAggregateSelG_comp f g annSel]
  | .QDBConnection connSel => by
      simp [mapQueryDB, mapConnectionSelect_comp f g connSel]
  | .QDBStreamMultipleRows annSel => by
      simp [mapQueryDB, mapAnnSimpleStreamSelG_comp f g annSel]

-- Bridging the specialized select folds to the generic `bifoldMapAnnSelectG`.

/-- The fields fold of the simple select is the generic fields fold. -/
theorem bifoldMapAnnFields_eq_foldMapL {b : Backend} [Monoid M] (f : R → M)
    (g : V → M) :
    ∀ l : List (FieldName × AnnFieldG b R V),
      bifoldMapAnnFields f g l = foldMapL (fun fld => bifoldMapAnnFieldG f g fld.2) l
  | [] => by simp [bifoldMapAnnFields, foldMapL]
  | fld :: rest => by
      simp [bifoldMapAnnFields, foldMapL,
        bifoldMapAnnFields_eq_foldMapL f g rest]

/-- The fields fold of the aggregate select is the generic fields fold. -/
theorem bifoldMapTableAggFields_eq_foldMapL {b : Backend} [Monoid M] (f : R → M)
    (g : V → M) :
    ∀ l : List (FieldName × TableAggregateFieldG b R V),
      bifoldMapTableAggFields f g l
        = foldMapL (fun fld => bifoldMapTableAggregateFieldG f g fld.2) l
  | [] => by simp [bifoldMapTableAggFields, foldMapL]
  | fld :: rest => by
      simp [bifoldMapTableAggFields, foldMapL,
        bifoldMapTableAggFields_eq_foldMapL f g rest]

/-- The fields fold of the connection select is the generic fields fold. -/
theorem bifoldMapConnectionFields_eq_foldMapL {b : Backend} [Monoid M] (f : R → M)
    (g : V → M) :
    ∀ l : List (FieldName × ConnectionField b R V),
      bifoldMapConnectionFields f g l
        = foldMapL (fun fld => bifoldMapConnectionField f g fld.2) l
  | [] => by simp [bifoldMapConnectionFields, foldMapL]
  | fld :: rest => by
      simp [bifoldMapConnectionFields, foldMapL,
        bifoldMapConnectionFields_eq_foldMapL f g rest]

/-- The specialized simple-select fold is `bifoldMapAnnSelectG` at the
`AnnFieldG` bifold. -/
theorem bifoldMapAnnSimpleSelG_eq_generic {b : Backend} [Monoid M] (f : R → M)
    (g : V → M) :
    ∀ s : AnnSelectG b (AnnFieldG b R V) V,
      bifoldMapAnnSimpleSelG f g s
        = bifoldMapAnnSelectG (bifoldMapAnnFieldG f g) g s
  | ⟨fields, frm, perm, args, strfy, nc⟩ => by
      simp [bifoldMapAnnSimpleSelG, bifoldMapAnnSelectG,
        bifoldMapAnnFields_eq_foldMapL f g fields]

/-- The specialized aggregate-select fold is `bifoldMapAnnSelectG` at the
`TableAggregateFieldG` bifold. -/
theorem bifoldMapAnnAggregateSelG_eq_generic {b : Backend} [Monoid M] (f : R → M)
    (g : V → M) :
    ∀ s : AnnSelectG b (TableAggregateFieldG b R V) V,
      bifoldMapAnnAggregateSelG f g s
        = bifoldMapAnnSelectG (bifoldMapTableAggregateFieldG f g) g s
  | ⟨fields, frm, perm, args, strfy, nc⟩ => by
      simp [bifoldMapAnnAggregateSelG, bifoldMapAnnSelectG,
        bifoldMapTableAggFields_eq_foldMapL f g fields]

/-- The specialized connection-select inner fold is `bifoldMapAnnSelectG` at
the `ConnectionField` bifold. -/
theorem bifoldMapConnAnnSelG_eq_generic {b : Backend} [Monoid M] (f : R → M)
    (g : V → M) :
    ∀ s : AnnSelectG b (ConnectionField b R V) V,
      bifoldMapConnAnnSelG f g s
        = bifoldMapAnnSelectG (bifoldMapConnectionField f g) g s
  | ⟨fields, frm, perm, args, strfy, nc⟩ => by
      simp [bifoldMapConnAnnSelG, bifoldMapAnnSelectG,
        bifoldMapConnectionFields_eq_foldMapL f g fields]

/-- The specialized stream-select fold is `bifoldMapAnnSelectStreamG` at the
`AnnFieldG` bifold. -/
theorem bifoldMapAnnSimpleStreamSelG_eq_generic {b : Backend} [Monoid M]
    (f : R → M) (g : V → M) (s : AnnSelectStreamG b (AnnFieldG b R V) V) :
    bifoldMapAnnSimpleStreamSelG f g s
      = bifoldMapAnnSelectStreamG (bifoldMapAnnFieldG f g) g s := by
  simp [bifoldMapAnnSimpleStreamSelG, bifoldMapAnnSelectStreamG,
    bifoldMapAnnFields_eq_foldMapL f g s._assnFields]

/-- `insertFunctionArg`'s positional insertion, via `Data.Sequence.insertAt`
semantics: the index is clamped into `[0, length]`, elements from the
insertion point shift right by one. -/
def seqInsertAt (i : Int) (x : α) (xs : List α) : List α :=
  let j := min (max i 0).toNat xs.length
  xs.take j ++ x :: xs.drop j

/-- `insertFunctionArg` from the source: if the argument's positional index
fits within the positional list (`idx + 1 <= length positional`), insert the
value positionally; otherwise insert it into the named map under the
argument name's text. -/
def insertFunctionArg (argName : FunctionArgName) (idx : Int) (value : a)
    (fa : FunctionArgsExpG a) : FunctionArgsExpG a :=
  if idx + 1 ≤ (fa.positional.length : Int) then
    ⟨seqInsertAt idx value fa.positional, fa.named⟩
  else
    ⟨fa.positional, fa.named.insert (getFuncArgNameTxt argName) value⟩

/-- Looking up the inserted key finds the inserted value. -/
theorem HashMap.lookup_insert_self [DecidableEq k] (key : k) (val : a) :
    ∀ m : HashMap k a, (m.insert key val).lookup key = some val
  | [] => by simp [HashMap.insert, HashMap.lookup]
  | (k', v') :: rest => by
      by_cases h : k' = key <;>
        simp [HashMap.insert, HashMap.lookup, h,
          HashMap.lookup_insert_self key val rest]

/-- Looking up another key is unaffected by an insert. -/
theorem HashMap.lookup_insert_ne [DecidableEq k] (key key' : k) (val : a)
    (hne : key' ≠ key) :
    ∀ m : HashMap k a, (m.insert key val).lookup key' = m.lookup key'
  | [] => by simp [HashMap.insert, HashMap.lookup, Ne.symm hne]
  | (k', v') :: rest => by
      by_cases h : k' = key
      · subst h
        simp [HashMap.insert, HashMap.lookup, Ne.symm hne]
      · by_cases h2 : k' = key' <;>
          simp [HashMap.insert, HashMap.lookup, h, h2, hne,
            HashMap.lookup_insert_ne key key' val hne rest]

-- The RQL query dispatcher (`Hasura.Server.API.V2Query`).
--
-- The leaf query payloads (`InsertQuery`, `RunSQL`, …) live in modules
-- outside the sampled source; they are opaque to the dispatcher except for
-- the schema-cache predicate on the run-sql payloads, so they are modelled
-- as carriers of exactly the data the dispatcher consumes.

/-- Opaque DML query payload (`InsertQuery` etc. are not in the sampled
source; the dispatcher never inspects them). -/
structure InsertQuery where
  payload : Nat
  deriving DecidableEq, Repr

/-- Opaque `SelectQuery` payload. -/
structure SelectQuery where
  payload : Nat
  deriving DecidableEq, Repr

/-- Opaque `UpdateQuery` payload. -/
structure UpdateQuery where
  payload : Nat
  deriving DecidableEq, Repr

/-- Opaque `DeleteQuery` payload. -/
structure DeleteQuery where
  payload : Nat
  deriving DecidableEq, Repr

/-- Opaque `CountQuery` payload. -/
structure CountQuery where
  payload : Nat
  deriving DecidableEq, Repr

/-- Modelled from the spec: `Postgres.RunSQL` with the result of
`isSchemaCacheBuildRequiredRunSQL` carried as a field (the real predicate,
which inspects the SQL text and cascade/metadata-check flags, lives in
`Hasura.Backends.Postgres.DDL.RunSQL`, not in the sampled source). -/
structure RunSQL where
  sql : Text
  schemaCacheBuildRequired : Bool
  deriving DecidableEq, Repr

/-- Modelled from the spec: `Postgres.isSchemaCacheBuildRequiredRunSQL`. -/
def isSchemaCacheBuildRequiredRunSQL (q : RunSQL) : Bool :=
  q.schemaCacheBuildRequired

/-- Modelled from the spec: `MSSQL.MSSQLRunSQL` with its schema-cache
predicate result as a field. -/
structure MSSQLRunSQL where
  sql : Text
  schemaCacheBuildRequired : Bool
  deriving DecidableEq, Repr

/-- Modelled from the spec: `MSSQL.isSchemaCacheBuildRequiredRunSQL`. -/
def mssqlIsSchemaCacheBuildRequiredRunSQL (q : MSSQLRunSQL) : Bool :=
  q.schemaCacheBuildRequired

/-- Opaque `MySQL.RunSQL` payload. -/
structure MySQLRunSQL where
  sql : Text
  deriving DecidableEq, Repr

/-- Opaque `BigQuery.BigQueryRunSQL` payload. -/
structure BigQueryRunSQL where
  sql : Text
  deriving DecidableEq, Repr

/-- Opaque `DataConnector.DataConnectorRunSQL` payload. -/
structure DataConnectorRunSQL where
  sql : Text
  deriving DecidableEq, Repr

/-- Opaque data-connector name. -/
structure DataConnectorName where
  name : Text
  deriving DecidableEq, Repr

/-- `RQLQuery` from `Hasura.Server.API.V2Query`. -/
inductive RQLQuery : Type
  | RQInsert (q : InsertQuery)
  | RQSelect (q : SelectQuery)
  | RQUpdate (q : UpdateQuery)
  | RQDelete (q : DeleteQuery)
  | RQCount (q : CountQuery)
  | RQRunSql (q : RunSQL)
  | RQMssqlRunSql (q : MSSQLRunSQL)
  | RQCitusRunSql (q : RunSQL)
  | RQCockroachRunSql (q : RunSQL)
  | RQMysqlRunSql (q : MySQLRunSQL)
  | RQBigqueryRunSql (q : BigQueryRunSQL)
  | RQDataConnectorRunSql (n : DataConnectorName) (q : DataConnectorRunSQL)
  | RQBigqueryDatabaseInspection (q : BigQueryRunSQL)
  | RQBulk (l : List RQLQuery)
  | RQConcurrentBulk (l : List RQLQuery)
  deriving Repr

mutual

/-- `queryModifiesSchema` from the source: DML and most run-sql variants do
not modify the schema; the Postgres-family and MSSQL run-sql variants defer
to their schema-cache predicate; bulks are `any`. -/
def queryModifiesSchema : RQLQuery → Bool
  | .RQInsert _ => false
  | .RQSelect _ => false
  | .RQUpdate _ => false
  | .RQDelete _ => false
  | .RQCount _ => false
  | .RQRunSql q => isSchemaCacheBuildRequiredRunSQL q
  | .RQCitusRunSql q => isSchemaCacheBuildRequiredRunSQL q
  | .RQCockroachRunSql q => isSchemaCacheBuildRequiredRunSQL q
  | .RQMssqlRunSql q => mssqlIsSchemaCacheBuildRequiredRunSQL q
  | .RQMysqlRunSql _ => false
  | .RQBigqueryRunSql _ => false
  | .RQDataConnectorRunSql _ _ => false
  | .RQBigqueryDatabaseInspection _ => false
  | .RQBulk l => anyModifiesSchema l
  | .RQConcurrentBulk l => anyModifiesSchema l

/-- `any queryModifiesSchema`, inlined for structural recursion. -/
def anyModifiesSchema : List RQLQuery → Bool
  | [] => false
  | q :: rest => queryModifiesSchema q || anyModifiesSchema rest

end

mutual

/-- `queryModifiesUserDB` from the source: DML writes and every run-sql
variant modify the user database; selects, counts and database inspection
do not; a bulk is `any`; a concurrent bulk is `False` regardless of its
contents. -/
def queryModifiesUserDB : RQLQuery → Bool
  | .RQInsert _ => true
  | .RQSelect _ => false
  | .RQUpdate _ => true
  | .RQDelete _ => true
  | .RQCount _ => false
  | .RQRunSql _ => true
  | .RQCitusRunSql _ => true
  | .RQCockroachRunSql _ => true
  | .RQMssqlRunSql _ => true
  | .RQMysqlRunSql _ => true
  | .RQBigqueryRunSql _ => true
  | .RQDataConnectorRunSql _ _ => true
  | .RQBigqueryDatabaseInspection _ => false
  | .RQBulk l => anyModifiesUserDB l
  | .RQConcurrentBulk _ => false

/-- `any queryModifiesUserDB`, inlined for structural recursion. -/
def anyModifiesUserDB : List RQLQuery → Bool
  | [] => false
  | q :: rest => queryModifiesUserDB q || anyModifiesUserDB rest

end

/-- `anyModifiesSchema` is `List.any queryModifiesSchema`. -/
theorem anyModifiesSchema_eq_any :
    ∀ l : List RQLQuery, anyModifiesSchema l = l.any queryModifiesSchema
  | [] => by simp [anyModifiesSchema]
  | q :: rest => by
      simp [anyModifiesSchema, anyModifiesSchema_eq_any rest]

/-- `anyModifiesUserDB` is `List.any queryModifiesUserDB`. -/
theorem anyModifiesUserDB_eq_any :
    ∀ l : List RQLQuery, anyModifiesUserDB l = l.any queryModifiesUserDB
  | [] => by simp [anyModifiesUserDB]
  | q :: rest => by
      simp [anyModifiesUserDB, anyModifiesUserDB_eq_any rest]

/-- `QErr`: status, error code, message. -/
structure QErr where
  status : Nat
  code : Text
  message : Text
  deriving DecidableEq, Repr

/-- `EncJSON`, modelled as a JSON-ish value: a raw encoding or an encoded
list (`encJFromList`). -/
inductive EncJSON : Type
  | raw (s : Text)
  | list (xs : List EncJSON)
  deriving Repr

/-- `encJFromList`. -/
def encJFromList : List EncJSON → EncJSON := EncJSON.list

/-- `throw500`: an internal error with code `unexpected`. -/
def throw500 (msg : Text) : Except QErr α := .error ⟨500, "unexpected", msg⟩

/-- `throw400 NotSupported`. -/
def throw400NotSupported (msg : Text) : Except QErr α :=
  .error ⟨400, "not-supported", msg⟩

/-- The execution environment for leaf queries: `runQueryM` dispatches each
non-bulk variant to a backend runner whose behaviour lives outside the
sampled source, so the runners are abstract parameters. -/
structure ExecEnv where
  runInsert : InsertQuery → Except QErr EncJSON
  runSelect : SelectQuery → Except QErr EncJSON
  runUpdate : UpdateQuery → Except QErr EncJSON
  runDelete : DeleteQuery → Except QErr EncJSON
  runCount : CountQuery → Except QErr EncJSON
  runRunSqlVanilla : RunSQL → Except QErr EncJSON
  runRunSqlCitus : RunSQL → Except QErr EncJSON
  runRunSqlCockroach : RunSQL → Except QErr EncJSON
  runMssqlSql : MSSQLRunSQL → Except QErr EncJSON
  runMysqlSql : MySQLRunSQL → Except QErr EncJSON
  runBigquerySql : BigQueryRunSQL → Except QErr EncJSON
  runDataConnectorSql : DataConnectorName → DataConnectorRunSQL → Except QErr EncJSON
  runBigqueryInspection : BigQueryRunSQL → Except QErr EncJSON

mutual

/-- `runQueryM` from the source, as a function into `Except QErr EncJSON`:
leaf queries dispatch to their runner; a bulk runs its queries in order and
returns the list of results; a concurrent bulk first asserts (`throw500`)
that none of its queries modifies the schema and then runs them all,
returning the list of results.  (`mapConcurrently` returns results in input
order, so the concurrent bulk's result collection is modelled sequentially;
the tracing wrapper is dropped.) -/
def runQueryM (env : ExecEnv) : RQLQuery → Except QErr EncJSON
  | .RQInsert q => env.runInsert q
  | .RQSelect q => env.runSelect q
  | .RQUpdate q => env.runUpdate q
  | .RQDelete q => env.runDelete q
  | .RQCount q => env.runCount q
  | .RQRunSql q => env.runRunSqlVanilla q
  | .RQMssqlRunSql q => env.runMssqlSql q
  | .RQMysqlRunSql q => env.runMysqlSql q
  | .RQCitusRunSql q => env.runRunSqlCitus q
  | .RQCockroachRunSql q => env.runRunSqlCockroach q
  | .RQBigqueryRunSql q => env.runBigquerySql q
  | .RQDataConnectorRunSql t q => env.runDataConnectorSql t q
  | .RQBigqueryDatabaseInspection q => env.runBigqueryInspection q
  | .RQBulk l => (runQueryList env l).map encJFromList
  | .RQConcurrentBulk l =>
      if queryModifiesSchema (.RQConcurrentBulk l) then
        throw500 "Only read-only queries are allowed in a concurrent_bulk"
      else (runQueryList env l).map encJFromList

/-- Sequential execution of a list of queries, stopping at the first
error. -/
def runQueryList (env : ExecEnv) : List RQLQuery → Except QErr (List EncJSON)
  | [] => .ok []
  | q :: rest => do
      let r ← runQueryM env q
      let rs ← runQueryList env rest
      pure (r :: rs)

end

/-- `runQueryList` is `List.mapM` of `runQueryM`. -/
theorem runQueryList_eq_mapM (env : ExecEnv) :
    ∀ l : List RQLQuery, runQueryList env l = l.mapM (runQueryM env)
  | [] => by rw [List.mapM_nil]; simp [runQueryList]; rfl
  | q :: rest => by
      rw [List.mapM_cons]
      simp [runQueryList, runQueryList_eq_mapM env rest]

/-- `ReadOnlyMode` from the server config. -/
inductive ReadOnlyMode
  | ReadOnlyModeEnabled
  | ReadOnlyModeDisabled
  deriving DecidableEq, Repr

/-- The read-only guard at the head of `runQuery`: when read-only mode is
enabled and the query modifies the user database, fail with
`throw400 NotSupported "Cannot run write queries when read-only mode is
enabled"`; otherwise pass. -/
def runQueryReadOnlyGuard (mode : ReadOnlyMode) (q : RQLQuery) :
    Except QErr Unit :=
  if mode = .ReadOnlyModeEnabled && queryModifiesUserDB q then
    throw400NotSupported "Cannot run write queries when read-only mode is enabled"
  else .ok ()


-- Helper lemmas for the claim statements.

/-- `foldMapL` over a `flatMap` is the fold of the per-element folds. -/
theorem foldMapL_flatMap [Monoid M] (g : α → M) (f : β → List α) :
    ∀ l : List β, foldMapL g (l.flatMap f) = foldMapL (fun x => foldMapL g (f x)) l
  | [] => by simp [foldMapL]
  | x :: xs => by
      simp [foldMapL, List.flatMap_cons, List.map_append, List.prod_append]
      have := foldMapL_flatMap g f xs
      simp [foldMapL] at this
      simp [this]

/-- `neListVList` is `flatMap` over the underlying list. -/
theorem neListVList_eq_flatMap (f : α → List β) (l : NEList α) :
    neListVList f l = l.toList.flatMap f := by
  cases l; simp [neListVList, NEList.toList]

/-- The leaf values of one connection split: the bound value, then the
values inside its paired order-by item. -/
theorem foldMapL_connectionSplit {b : Backend} [Monoid M] (g : V → M)
    (s : ConnectionSplit b V) :
    foldMapL g (connectionSplitVList s)
      = g s._csValue
        * foldMapL g (orderByItemVList annotatedOrderByElementVList s._csOrderBy)
      := by
  simp [connectionSplitVList, foldMapL]

/-- The split-sequence fold exactly as the spec words it: for every split in
the (optional, non-empty) sequence, apply `g` to the split's bound value and
to every value inside its paired order-by item. -/
def connectionSplitsFold {b : Backend} [Monoid M] (g : V → M) :
    Option (NEList (ConnectionSplit b V)) → M
  | none => 1
  | some splits =>
      foldMapL
        (fun s =>
          g s._csValue
            * foldMapL g (orderByItemVList annotatedOrderByElementVList s._csOrderBy))
        splits.toList

-- A concrete test backend and an all-variant tree, used as evaluation
-- fixtures.

/-- A concrete backend instantiation: all type families are `Text` or
`Unit`. -/
def TB : Backend :=
  ⟨Text, Text, Text, Text, Text, Text, Text, Unit, Unit, Unit, Unit, Unit,
    Unit, Unit, Unit, Unit, Text⟩

/-- A one-comparison boolean expression holding the given leaf values. -/
def tBool (vals : List Text) : AnnBoolExp TB Text := .BoolField ⟨"ci", vals⟩

/-- A one-comparison case expression holding the given leaf values. -/
def tCase (vals : List Text) : AnnColumnCaseBoolExp TB Text :=
  .BoolField ⟨⟨"ci", vals⟩⟩

/-- A column field whose case expression holds the given leaf values. -/
def tColumn (vals : List Text) : AnnFieldG TB Text Text :=
  .AFColumn ⟨"col", "ty", false, none, some (tCase vals)⟩

/-- Function arguments holding the given leaf values as inputs plus a
table-row named argument. -/
def tArgsF (vals : List Text) : FunctionArgsExp Text :=
  ⟨vals.map .AEInput, [("n", .AETableRow)]⟩

/-- A permission with the given filter leaf values and a limit. -/
def tPerm (vals : List Text) : TablePermG TB Text := ⟨tBool vals, some 5⟩

/-- An order-by item: object relation wrapping a plain column, with the
given permission-filter leaf values. -/
def tOrderBy (vals : List Text) : AnnotatedOrderByItemG TB Text :=
  ⟨none, .AOCObjectRelation "ri" (tBool vals) (.AOCColumn "ci"), none⟩

/-- Select arguments: where clause, and order-by items covering the
object-relation, array-aggregation and computed-field order-by variants. -/
def tSelArgs (vals : List Text) : SelectArgsG TB Text :=
  ⟨some (tBool vals),
    some ⟨tOrderBy ["ov1"],
      [⟨some (), .AOCArrayAggregation "ri2" (tBool ["ov2"]) .AAOCount, some ()⟩,
        ⟨none,
          .AOCComputedField
            ⟨(), "cfo", "fn2", tArgsF ["ov3"],
              .CFOBETableAggregation "t5" (tBool ["ov4"]) (.AAOOp "max" "ct" "ci")⟩,
          none⟩]⟩,
    some 1, some 2, none⟩

/-- An inner simple select (an expression field over an identifier
from-clause). -/
def tInnerSel : AnnSelectG TB (AnnFieldG TB Text Text) Text :=
  ⟨[("e", .AFExpression "lit")], .FromIdentifier ⟨"fid"⟩, ⟨annBoolExpTrue, none⟩,
    noSelectArgs, .DontStringifyNumbers, some .HasuraCase⟩

/-- An object select whose fields include a table-valued computed field. -/
def tObjSel : AnnObjectSelectG TB Text Text :=
  .mk [("cf2", .AFComputedField () "cfname2" (.CFSTable .JASMultipleRows tInnerSel))]
    "t2" (tBool ["of1"])

/-- An aggregate field list covering all three `TableAggregateFieldG`
variants. -/
def tAggFields : List (FieldName × TableAggregateFieldG TB Text Text) :=
  [("agg", .TAFAgg
      [("cnt", .AFCount ()),
        ("op", .AFOp ⟨"sum", [("c", .CFCol "col" "ty"), ("x", .CFExp "xx")]⟩),
        ("ex", .AFExp "ae")]),
    ("nodes", .TAFNodes () [("n", tColumn ["an1"])]),
    ("exp", .TAFExp "te")]

/-- An aggregate select over `tAggFields`. -/
def tAggSel : AnnSelectG TB (TableAggregateFieldG TB Text Text) Text :=
  ⟨tAggFields, .FromTable "t3", tPerm ["ap1"], noSelectArgs, .StringifyNumbers, none⟩

/-- An edge-field list covering all three `EdgeField` variants. -/
def tEdgeFields : List (FieldName × EdgeField TB Text Text) :=
  [("tn", .EdgeTypename "et"), ("cur", .EdgeCursor),
    ("node", .EdgeNode [("nc", tColumn ["ec1"])])]

/-- A connection-field list covering all three `ConnectionField`
variants. -/
def tConnFields : List (FieldName × ConnectionField TB Text Text) :=
  [("ct", .ConnectionTypename "c"),
    ("pi", .ConnectionPageInfo [("p", .PageInfoHasNextPage)]),
    ("ed", .ConnectionEdges tEdgeFields)]

/-- A connection select with one split (whose bound value is the `v`-marker
`VMARK`), a slice, and `tConnFields`. -/
def tConnSel : ConnectionSelect TB Text Text :=
  .mk () ⟨"pk", []⟩ (some ⟨⟨.CSKAfter, "VMARK", tOrderBy ["cs1"]⟩, []⟩)
    (some (.SliceFirst 3))
    ⟨tConnFields, .FromTable "t4", ⟨annBoolExpTrue, none⟩, noSelectArgs,
      .StringifyNumbers, none⟩

/-- A simple select over a native-query from-clause. -/
def tArrSimpleSel : AnnSelectG TB (AnnFieldG TB Text Text) Text :=
  ⟨[("e2", .AFExpression "l2")], .FromNativeQuery ⟨"nq", ["nv1"]⟩,
    ⟨annBoolExpTrue, none⟩, noSelectArgs, .StringifyNumbers, none⟩

/-- A field list exercising all seven `AnnFieldG` variants (the array
relation in each of its three shapes); the single remote field carries the
`r`-marker `RMARK`. -/
def tFields : List (FieldName × AnnFieldG TB Text Text) :=
  [("col", tColumn ["cv1"]),
    ("obj", .AFObjectRelation ⟨"orel", [("lc", "rc")], tObjSel⟩),
    ("arrS", .AFArrayRelation (.ASSimple ⟨"ar1", [], tArrSimpleSel⟩)),
    ("arrA", .AFArrayRelation (.ASAggregate ⟨"ar2", [], tAggSel⟩)),
    ("arrC", .AFArrayRelation (.ASConnection ⟨"ar3", [], tConnSel⟩)),
    ("cf", .AFComputedField () "cfname"
      (.CFSScalar ⟨"fn", tArgsF ["sa1"], "st", none⟩ (some (tCase ["sc1"])))),
    ("rem", .AFRemote ⟨[("jf", ())], "RMARK"⟩),
    ("nid", .AFNodeId () "src" "t" ⟨"pkci", []⟩),
    ("expr", .AFExpression "ex")]

/-- The all-variant tree: a multiple-rows query over `tFields`, with a
function-call from-clause, a permission filter, and rich select
arguments. -/
def tAll : QueryDB TB Text Text :=
  .QDBMultipleRows
    ⟨tFields, .FromFunction "f" (tArgsF ["fv1"]) (some [("c", "s")]),
      tPerm ["pp1"], tSelArgs ["wv1"], .StringifyNumbers, some .GraphqlCase⟩


-- Claim theorems.

/-- C1 (Bifold completeness): for every `QueryDB` tree over any backend,
remote-marker type and leaf type, and any monoid-valued combining functions,
the hand-written bifold equals the monoid product over the mechanical
enumeration of every embedded `r`- and `v`-occurrence in declaration order —
each occurrence is visited exactly once and no field's occurrences are
dropped.  In particular, on the all-variant tree `tAll`, which carries one
distinguishable marker in an `r` position (`RMARK`) and one in a `v`
position (`VMARK`), the bifold with counting functions reports having
visited each marker exactly once. -/
theorem bifold_completeness :
    (∀ (b : Backend) (R V M : Type) [Monoid M] (f : R → M) (g : V → M)
        (q : QueryDB b R V),
        bifoldMapQueryDB f g q = foldMapL (Sum.elim f g) (occsQueryDB q))
    ∧ bifoldMapQueryDB (M := Multiplicative ℕ)
        (fun r => .ofAdd (if r = "RMARK" then 1 else 0))
        (fun _ => .ofAdd 0) tAll = .ofAdd 1
    ∧ bifoldMapQueryDB (M := Multiplicative ℕ)
        (fun _ => .ofAdd 0)
        (fun v => .ofAdd (if v = "VMARK" then 1 else 0)) tAll = .ofAdd 1 := by
  refine ⟨?_, ?_, ?_⟩
  · intro b R V M _ f g q
    exact bifold_occs_queryDB f g q
  · rfl
  · rfl

/-- A closed instance of the universal part of `bifold_completeness`,
evaluated on the all-variant tree with list-collecting functions. -/
theorem bifold_completeness_witness :
    bifoldMapQueryDB (M := Multiplicative ℕ)
        (fun r : Text => .ofAdd (if r = "RMARK" then 1 else 0))
        (fun _ : Text => .ofAdd 0) tAll
      = foldMapL (Sum.elim (fun r : Text => .ofAdd (if r = "RMARK" then 1 else 0))
          (fun _ : Text => Multiplicative.ofAdd 0)) (occsQueryDB tAll) :=
  bifold_completeness.1 TB Text Text (Multiplicative ℕ) _ _ tAll


/-- `foldMapL` respects pointwise-equal functions. -/
theorem foldMapL_congr [Monoid M] (f1 f2 : α → M) (hf : ∀ x, f1 x = f2 x)
    (l : List α) : foldMapL f1 l = foldMapL f2 l := by
  simp [foldMapL, listMap_eq_of f1 f2 hf l]

/-- C2 (ConnectionSelect bifold): for every `ConnectionSelect`, the bifold
equals the combination of (a) applying the `v`-combining function to every
leaf contained in each cursor split — the split's bound value and every
value inside its paired order-by item, for every split in the optional
non-empty split sequence — and (b) the generic single-select fold
`bifoldMapAnnSelectG` of the wrapped select; the equality shows no other
`r`- or `v`-occurrence is visited. -/
theorem connectionSelect_bifold_parts :
    ∀ (b : Backend) (R V M : Type) [Monoid M] (f : R → M) (g : V → M)
      (x : ConnectionSelect b R V),
      bifoldMapConnectionSelect f g x
        = connectionSplitsFold g x.csSplit
          * bifoldMapAnnSelectG (bifoldMapConnectionField f g) g x.csSelect := by
  intro b R V M _ f g x
  cases x with
  | mk xr pk split slice sel =>
      cases split with
      | none =>
          simp [bifoldMapConnectionSelect, connectionSplitsFold,
            ConnectionSelect.csSplit, ConnectionSelect.csSelect, optionVList,
            foldMapL, bifoldMapConnAnnSelG_eq_generic f g sel]
      | some splits =>
          simp only [bifoldMapConnectionSelect, connectionSplitsFold,
            ConnectionSelect.csSplit, ConnectionSelect.csSelect, optionVList,
            bifoldMapConnAnnSelG_eq_generic f g sel,
            neListVList_eq_flatMap, foldMapL_flatMap]
          exact congrArg
            (· * bifoldMapAnnSelectG (bifoldMapConnectionField f g) g sel)
            (foldMapL_congr _ _ (fun s => foldMapL_connectionSplit g s)
              splits.toList)

/-- A closed instance of `connectionSelect_bifold_parts` at the concrete
connection select `tConnSel`. -/
theorem connectionSelect_bifold_parts_witness :
    bifoldMapConnectionSelect (M := Multiplicative ℕ)
        (fun _ : Text => .ofAdd 1) (fun _ : Text => .ofAdd 1) tConnSel
      = connectionSplitsFold (fun _ : Text => Multiplicative.ofAdd 1) tConnSel.csSplit
        * bifoldMapAnnSelectG
            (bifoldMapConnectionField (fun _ : Text => Multiplicative.ofAdd 1)
              (fun _ : Text => Multiplicative.ofAdd 1))
            (fun _ : Text => Multiplicative.ofAdd 1) tConnSel.csSelect :=
  connectionSelect_bifold_parts TB Text Text (Multiplicative ℕ) _ _ tConnSel

/-- C3 (deterministic fold order of the generic select fold): the generic
`bifoldMapAnnSelectG` equals the fold of every field entry in field-map
iteration order, then the from-clause fold, then the permission-filter
fold, then the arguments fold; and each of the three field-type
instantiations used by `QueryDB` (simple, aggregate, connection), as well
as the stream variant, agrees with the generic definition. -/
theorem annSelectG_fold_order :
    (∀ (b : Backend) (FV V M : Type) [Monoid M] (bifoldField : FV → M)
        (g : V → M) (s : AnnSelectG b FV V),
        bifoldMapAnnSelectG bifoldField g s
          = foldMapL (fun fld => bifoldField fld.2) s._asnFields
            * foldMapL g (selectFromVList s._asnFrom)
            * foldMapL g (tablePermVList s._asnPerm)
            * foldMapL g (selectArgsVList s._asnArgs))
    ∧ (∀ (b : Backend) (R V M : Type) [Monoid M] (f : R → M) (g : V → M)
        (s : AnnSelectG b (AnnFieldG b R V) V),
        bifoldMapAnnSimpleSelG f g s
          = bifoldMapAnnSelectG (bifoldMapAnnFieldG f g) g s)
    ∧ (∀ (b : Backend) (R V M : Type) [Monoid M] (f : R → M) (g : V → M)
        (s : AnnSelectG b (TableAggregateFieldG b R V) V),
        bifoldMapAnnAggregateSelG f g s
          = bifoldMapAnnSelectG (bifoldMapTableAggregateFieldG f g) g s)
    ∧ (∀ (b : Backend) (R V M : Type) [Monoid M] (f : R → M) (g : V → M)
        (s : AnnSelectG b (ConnectionField b R V) V),
        bifoldMapConnAnnSelG f g s
          = bifoldMapAnnSelectG (bifoldMapConnectionField f g) g s)
    ∧ (∀ (b : Backend) (R V M : Type) [Monoid M] (f : R → M) (g : V → M)
        (s : AnnSelectStreamG b (AnnFieldG b R V) V),
        bifoldMapAnnSimpleStreamSelG f g s
          = bifoldMapAnnSelectStreamG (bifoldMapAnnFieldG f g) g s) := by
  refine ⟨?_, ?_, ?_, ?_, ?_⟩
  · intro b FV V M _ bifoldField g s
    rfl
  · intro b R V M _ f g s
    exact bifoldMapAnnSimpleSelG_eq_generic f g s
  · intro b R V M _ f g s
    exact bifoldMapAnnAggregateSelG_eq_generic f g s
  · intro b R V M _ f g s
    exact bifoldMapConnAnnSelG_eq_generic f g s
  · intro b R V M _ f g s
    exact bifoldMapAnnSimpleStreamSelG_eq_generic f g s

/-- A closed instance of `annSelectG_fold_order` at the concrete aggregate
select `tAggSel`. -/
theorem annSelectG_fold_order_witness :
    bifoldMapAnnAggregateSelG (M := Multiplicative ℕ)
        (fun _ : Text => .ofAdd 1) (fun _ : Text => .ofAdd 1) tAggSel
      = bifoldMapAnnSelectG
          (bifoldMapTableAggregateFieldG (fun _ : Text => Multiplicative.ofAdd 1)
            (fun _ : Text => Multiplicative.ofAdd 1))
          (fun _ : Text => Multiplicative.ofAdd 1) tAggSel :=
  annSelectG_fold_order.2.2.1 TB Text Text (Multiplicative ℕ) _ _ tAggSel

/-- C4 (object-relation order-by counts permission-filter leaves): for
every object-relation order-by element, the number of leaves enumerated by
the derived fold equals the number of leaves in the permission filter plus
the number in the nested element. -/
theorem aocObjectRelation_counts_perm :
    ∀ (b : Backend) (v : Type) (ri : b.RelInfo) (P : AnnBoolExp b v)
      (E : AnnotatedOrderByElement b v),
      (annotatedOrderByElementVList (.AOCObjectRelation ri P E)).length
        = (annBoolExpVList P).length + (annotatedOrderByElementVList E).length := by
  intro b v ri P E
  simp [annotatedOrderByElementVList]

/-- C5 (functor laws): mapping the identity substitution over a tree
returns the tree unchanged, and mapping `f` then `g` equals one mapping of
`g ∘ f`, for `QueryDB` and its constituent node types. -/
theorem functor_laws :
    (∀ (b : Backend) (R V : Type) (q : QueryDB b R V), mapQueryDB id q = q)
    ∧ (∀ (b : Backend) (R V V2 V3 : Type) (f : V → V2) (g : V2 → V3)
        (q : QueryDB b R V), mapQueryDB g (mapQueryDB f q) = mapQueryDB (g ∘ f) q)
    ∧ (∀ (b : Backend) (R V : Type) (x : AnnFieldG b R V), mapAnnFieldG id x = x)
    ∧ (∀ (b : Backend) (R V V2 V3 : Type) (f : V → V2) (g : V2 → V3)
        (x : AnnFieldG b R V),
        mapAnnFieldG g (mapAnnFieldG f x) = mapAnnFieldG (g ∘ f) x)
    ∧ (∀ (b : Backend) (R V : Type) (x : ConnectionSelect b R V),
        mapConnectionSelect id x = x)
    ∧ (∀ (b : Backend) (R V V2 V3 : Type) (f : V → V2) (g : V2 → V3)
        (x : ConnectionSelect b R V),
        mapConnectionSelect g (mapConnectionSelect f x)
          = mapConnectionSelect (g ∘ f) x)
    ∧ (∀ (b : Backend) (R V : Type) (s : AnnSelectG b (AnnFieldG b R V) V),
        mapAnnSimpleSelG id s = s)
    ∧ (∀ (b : Backend) (R V V2 V3 : Type) (f : V → V2) (g : V2 → V3)
        (s : AnnSelectG b (AnnFieldG b R V) V),
        mapAnnSimpleSelG g (mapAnnSimpleSelG f s) = mapAnnSimpleSelG (g ∘ f) s)
    ∧ (∀ (b : Backend) (v : Type) (e : AnnotatedOrderByElement b v),
        mapAnnotatedOrderByElement id e = e)
    ∧ (∀ (b : Backend) (v v2 v3 : Type) (f : v → v2) (g : v2 → v3)
        (e : AnnotatedOrderByElement b v),
        mapAnnotatedOrderByElement g (mapAnnotatedOrderByElement f e)
          = mapAnnotatedOrderByElement (g ∘ f) e)
    ∧ (∀ (b : Backend) (v : Type) (e : AnnBoolExp b v), mapAnnBoolExp id e = e)
    ∧ (∀ (b : Backend) (v v2 v3 : Type) (f : v → v2) (g : v2 → v3)
        (e : AnnBoolExp b v),
        mapAnnBoolExp g (mapAnnBoolExp f e) = mapAnnBoolExp (g ∘ f) e)
    ∧ (∀ (b : Backend) (v : Type) (s : SelectFromG b v), mapSelectFromG id s = s)
    ∧ (∀ (b : Backend) (v : Type) (s : SelectArgsG b v), mapSelectArgsG id s = s)
    ∧ (∀ (b : Backend) (v : Type) (p : TablePermG b v), mapTablePermG id p = p) := by
  refine ⟨?_, ?_, ?_, ?_, ?_, ?_, ?_, ?_, ?_, ?_, ?_, ?_, ?_, ?_, ?_⟩
  · intro b R V q; exact mapQueryDB_id q
  · intro b R V V2 V3 f g q; exact mapQueryDB_comp f g q
  · intro b R V x; exact mapAnnFieldG_id x
  · intro b R V V2 V3 f g x; exact mapAnnFieldG_comp f g x
  · intro b R V x; exact mapConnectionSelect_id x
  · intro b R V V2 V3 f g x; exact mapConnectionSelect_comp f g x
  · intro b R V s; exact mapAnnSimpleSelG_id s
  · intro b R V V2 V3 f g s; exact mapAnnSimpleSelG_comp f g s
  · intro b v e; exact mapAnnotatedOrderByElement_id e
  · intro b v v2 v3 f g e; exact mapAnnotatedOrderByElement_comp f g e
  · intro b v e; exact mapAnnBoolExp_id e
  · intro b v v2 v3 f g e; exact mapAnnBoolExp_comp f g e
  · intro b v s; exact mapSelectFromG_id s
  · intro b v s; exact mapSelectArgsG_id s
  · intro b v p; exact mapTablePermG_id p


/-- A concrete execution environment in which every leaf runner succeeds
with a tagged result. -/
def tEnv : ExecEnv :=
  ⟨fun _ => .ok (.raw "ins"), fun _ => .ok (.raw "sel"),
    fun _ => .ok (.raw "upd"), fun _ => .ok (.raw "del"),
    fun _ => .ok (.raw "cnt"), fun _ => .ok (.raw "pg"),
    fun _ => .ok (.raw "citus"), fun _ => .ok (.raw "roach"),
    fun _ => .ok (.raw "mssql"), fun _ => .ok (.raw "mysql"),
    fun _ => .ok (.raw "bq"), fun _ _ => .ok (.raw "dc"),
    fun _ => .ok (.raw "bqi")⟩

/-- C6 (concurrent-bulk schema assertion): `queryModifiesSchema` on a bulk
or concurrent bulk is `any` over the list; running a concurrent bulk fails
with the `throw500` assertion error when some constituent modifies the
schema, and otherwise executes every constituent, returning the list of
results. -/
theorem concurrentBulk_schema_assertion :
    (∀ l, queryModifiesSchema (.RQBulk l) = l.any queryModifiesSchema)
    ∧ (∀ l, queryModifiesSchema (.RQConcurrentBulk l) = l.any queryModifiesSchema)
    ∧ (∀ env l, l.any queryModifiesSchema = true →
        runQueryM env (.RQConcurrentBulk l)
          = throw500 "Only read-only queries are allowed in a concurrent_bulk")
    ∧ (∀ env l, l.any queryModifiesSchema = false →
        runQueryM env (.RQConcurrentBulk l)
          = (l.mapM (runQueryM env)).map encJFromList) := by
  refine ⟨?_, ?_, ?_, ?_⟩
  · intro l; simp [queryModifiesSchema, anyModifiesSchema_eq_any]
  · intro l; simp [queryModifiesSchema, anyModifiesSchema_eq_any]
  · intro env l h
    simp [runQueryM, queryModifiesSchema, anyModifiesSchema_eq_any, h]
  · intro env l h
    simp [runQueryM, queryModifiesSchema, anyModifiesSchema_eq_any, h,
      runQueryList_eq_mapM]

/-- A closed instance of `concurrentBulk_schema_assertion`: a concurrent
bulk containing a schema-modifying run-sql is rejected, and one containing
only reads executes all constituents. -/
theorem concurrentBulk_schema_assertion_witness :
    ([RQLQuery.RQRunSql ⟨"alter table t add column c int", true⟩].any
        queryModifiesSchema = true
      ∧ runQueryM tEnv
          (.RQConcurrentBulk [.RQRunSql ⟨"alter table t add column c int", true⟩])
          = throw500 "Only read-only queries are allowed in a concurrent_bulk")
    ∧ ([RQLQuery.RQSelect ⟨1⟩, RQLQuery.RQCount ⟨2⟩].any queryModifiesSchema = false
      ∧ runQueryM tEnv (.RQConcurrentBulk [.RQSelect ⟨1⟩, .RQCount ⟨2⟩])
          = ([RQLQuery.RQSelect ⟨1⟩, RQLQuery.RQCount ⟨2⟩].mapM
              (runQueryM tEnv)).map encJFromList) :=
  ⟨⟨by decide,
    concurrentBulk_schema_assertion.2.2.1 tEnv _ (by decide)⟩,
   ⟨by decide,
    concurrentBulk_schema_assertion.2.2.2 tEnv _ (by decide)⟩⟩

/-- C7 (`noTablePermissions`): the documented "no permission" constructor
is the table permission whose filter is the always-true boolean expression
and whose limit is absent, for every backend and leaf type. -/
theorem noTablePermissions_always_true :
    ∀ (b : Backend) (v : Type),
      (noTablePermissions : TablePermG b v) = ⟨annBoolExpTrue, none⟩
      ∧ (noTablePermissions : TablePermG b v)._tpFilter = annBoolExpTrue
      ∧ (noTablePermissions : TablePermG b v)._tpLimit = none :=
  fun _ _ => ⟨rfl, rfl, rfl⟩

/-- The seven variant tags of the field vocabulary. -/
inductive AnnFieldTag
  | column
  | objectRelation
  | arrayRelation
  | computedField
  | remote
  | nodeId
  | expression
  deriving DecidableEq, Repr

/-- A field matches a tag exactly when it is built by the tag's
constructor. -/
def annFieldMatchesTag {b : Backend} {r v : Type} :
    AnnFieldTag → AnnFieldG b r v → Prop
  | .column, x => ∃ col, x = .AFColumn col
  | .objectRelation, x => ∃ o, x = .AFObjectRelation o
  | .arrayRelation, x => ∃ arr, x = .AFArrayRelation arr
  | .computedField, x => ∃ xc n cf, x = .AFComputedField xc n cf
  | .remote, x => ∃ rr, x = .AFRemote rr
  | .nodeId, x => ∃ xr s t pk, x = .AFNodeId xr s t pk
  | .expression, x => ∃ t, x = .AFExpression t

/-- The three shapes of an array relation. -/
inductive ArraySelectTag
  | simple
  | aggregate
  | connection
  deriving DecidableEq, Repr

/-- An array select matches a tag exactly when it is built by the tag's
constructor. -/
def arraySelectMatchesTag {b : Backend} {r v : Type} :
    ArraySelectTag → ArraySelectG b r v → Prop
  | .simple, x => ∃ s, x = .ASSimple s
  | .aggregate, x => ∃ s, x = .ASAggregate s
  | .connection, x => ∃ s, x = .ASConnection s

/-- C8 (closed field vocabulary): every `AnnFieldG` value matches exactly
one of the seven variant tags — case analysis is exhaustive and the
variants are mutually exclusive — and likewise every `ArraySelectG` value
matches exactly one of its three shapes. -/
theorem field_vocabulary_closed :
    (∀ (b : Backend) (r v : Type) (x : AnnFieldG b r v),
        ∃! t, annFieldMatchesTag t x)
    ∧ (∀ (b : Backend) (r v : Type) (x : ArraySelectG b r v),
        ∃! t, arraySelectMatchesTag t x) := by
  constructor
  · intro b r v x
    cases x with
    | AFColumn col =>
        refine ⟨.column, ⟨col, rfl⟩, ?_⟩
        intro y hy
        cases y <;> simp [annFieldMatchesTag] at hy ⊢
    | AFObjectRelation o =>
        refine ⟨.objectRelation, ⟨o, rfl⟩, ?_⟩
        intro y hy
        cases y <;> simp [annFieldMatchesTag] at hy ⊢
    | AFArrayRelation arr =>
        refine ⟨.arrayRelation, ⟨arr, rfl⟩, ?_⟩
        intro y hy
        cases y <;> simp [annFieldMatchesTag] at hy ⊢
    | AFComputedField xc n cf =>
        refine ⟨.computedField, ⟨xc, n, cf, rfl⟩, ?_⟩
        intro y hy
        cases y <;> simp [annFieldMatchesTag] at hy ⊢
    | AFRemote rr =>
        refine ⟨.remote, ⟨rr, rfl⟩, ?_⟩
        intro y hy
        cases y <;> simp [annFieldMatchesTag] at hy ⊢
    | AFNodeId xr s t pk =>
        refine ⟨.nodeId, ⟨xr, s, t, pk, rfl⟩, ?_⟩
        intro y hy
        cases y <;> simp [annFieldMatchesTag] at hy ⊢
    | AFExpression t =>
        refine ⟨.expression, ⟨t, rfl⟩, ?_⟩
        intro y hy
        cases y <;> simp [annFieldMatchesTag] at hy ⊢
  · intro b r v x
    cases x with
    | ASSimple s =>
        refine ⟨.simple, ⟨s, rfl⟩, ?_⟩
        intro y hy
        cases y <;> simp [arraySelectMatchesTag] at hy ⊢
    | ASAggregate s =>
        refine ⟨.aggregate, ⟨s, rfl⟩, ?_⟩
        intro y hy
        cases y <;> simp [arraySelectMatchesTag] at hy ⊢
    | ASConnection s =>
        refine ⟨.connection, ⟨s, rfl⟩, ?_⟩
        intro y hy
        cases y <;> simp [arraySelectMatchesTag] at hy ⊢

/-- C9 (concurrent bulk bypasses the read-only guard):
`queryModifiesUserDB` on a concurrent bulk is `False` regardless of the
list's contents — unlike a plain bulk, which is `any` — so the read-only
guard of `runQuery` never rejects a concurrent bulk, even one whose
constituents are all writes. -/
theorem concurrentBulk_readonly_bypass :
    (∀ l, queryModifiesUserDB (.RQConcurrentBulk l) = false)
    ∧ (∀ mode l, runQueryReadOnlyGuard mode (.RQConcurrentBulk l) = .ok ())
    ∧ (∀ l, queryModifiesUserDB (.RQBulk l) = l.any queryModifiesUserDB)
    ∧ runQueryReadOnlyGuard .ReadOnlyModeEnabled
        (.RQConcurrentBulk
          [.RQInsert ⟨0⟩, .RQUpdate ⟨1⟩, .RQDelete ⟨2⟩,
            .RQRunSql ⟨"drop table t", true⟩]) = .ok () := by
  refine ⟨?_, ?_, ?_, rfl⟩
  · intro l; simp [queryModifiesUserDB]
  · intro mode l; simp [runQueryReadOnlyGuard, queryModifiesUserDB]
  · intro l; simp [queryModifiesUserDB, anyModifiesUserDB_eq_any]

/-- C10 (`insertFunctionArg`): for a non-negative index, if `idx + 1` is at
most the positional length the value is inserted positionally at `idx`
(later elements shift right, the named map is untouched); otherwise the
positional list is untouched and the value is inserted into the named map
under the argument name's text, overwriting any existing entry. -/
theorem insertFunctionArg_spec :
    ∀ (a : Type) (argName : FunctionArgName) (idx : Int) (value : a)
      (p : List a) (n : HashMap Text a), 0 ≤ idx →
      (idx + 1 ≤ (p.length : Int) →
        insertFunctionArg argName idx value ⟨p, n⟩
          = ⟨p.take idx.toNat ++ value :: p.drop idx.toNat, n⟩)
      ∧ ((p.length : Int) < idx + 1 →
        insertFunctionArg argName idx value ⟨p, n⟩
          = ⟨p, HashMap.insert (getFuncArgNameTxt argName) value n⟩
        ∧ HashMap.lookup (getFuncArgNameTxt argName)
            (insertFunctionArg argName idx value ⟨p, n⟩).named = some value
        ∧ ∀ k, k ≠ getFuncArgNameTxt argName →
            HashMap.lookup k (insertFunctionArg argName idx value ⟨p, n⟩).named
              = HashMap.lookup k n) := by
  intro a argName idx value p n h0
  constructor
  · intro hle
    unfold insertFunctionArg
    rw [if_pos hle]
    unfold seqInsertAt
    have h1 : max idx 0 = idx := max_eq_left h0
    have h2 : idx.toNat ≤ p.length := by omega
    simp [h1, min_eq_left h2]
  · intro hgt
    have hcond : ¬(idx + 1 ≤ (p.length : Int)) := by omega
    constructor
    · unfold insertFunctionArg
      rw [if_neg hcond]
    · constructor
      · unfold insertFunctionArg
        rw [if_neg hcond]
        exact HashMap.lookup_insert_self _ _ n
      · intro k hk
        unfold insertFunctionArg
        rw [if_neg hcond]
        exact HashMap.lookup_insert_ne _ _ _ hk n

/-- A closed instance of `insertFunctionArg_spec` exercising both the
positional and the named branch. -/
theorem insertFunctionArg_spec_witness :
    (0 ≤ (1 : Int))
    ∧ insertFunctionArg "a" 1 (99 : ℕ) ⟨[10, 20, 30], [("b", 7)]⟩
        = ⟨[10, 99, 20, 30], [("b", 7)]⟩
    ∧ insertFunctionArg "a" 7 (99 : ℕ) ⟨[10, 20, 30], [("b", 7)]⟩
        = ⟨[10, 20, 30], [("b", 7), ("a", 99)]⟩ :=
  ⟨by decide,
   by
     rw [(insertFunctionArg_spec ℕ "a" 1 99 [10, 20, 30] [("b", 7)]
        (by decide)).1 (by decide)]
     rfl,
   by
     rw [((insertFunctionArg_spec ℕ "a" 7 99 [10, 20, 30] [("b", 7)]
        (by decide)).2 (by decide)).1]
     rfl⟩

end V2
